import Mathlib

/-!
Verification of the ai-docgen code-commenting backend.

This file gives a shallow embedding of the rule-based documentation
generator (`backend/generators.py`), the HTTP-layer helpers
(`backend/main.py`) and the hosted-LLM wrapper (`backend/llm_provider.py`),
and proves or refutes the frozen specification claims about them.

Modelling conventions:
* Python strings are `List Char`.  String routines from the Python
  standard library (`splitlines`, `strip`, `lower`, `in`, `startswith`,
  `endswith`, `replace`, `os.path.basename`, `os.path.splitext`) are
  re-implemented below for the ASCII fragment exercised by the sources
  (line boundaries LF / CRLF / CR; whitespace space, tab, LF, CR, VT, FF).
* `ast.parse` is an external library function; it is passed in as a
  function parameter `parse : Str → Except Str Py` together with an
  inductive type `Py` covering the node kinds that the generators
  inspect.  Concrete theorems instantiate `parse` with the tree that
  CPython actually produces for the concrete input at hand.
* The four non-Python surface commenters (JavaScript / HTML / CSS /
  Java) are pure string functions defined elsewhere in `generators.py`;
  the claims under study never depend on their internals, so they are
  passed in as a parameter bundle `LangImpls` of pure functions, exactly
  as they are called from the dispatcher `generate_simple_docs`.
* Fallible code returns `Except`; no function in scope raises once its
  callees are total, which mirrors the catch-all `try/except` blocks in
  the sources.
-/

namespace DocGen

/-- Python strings are modelled as lists of characters. -/
abbrev Str := List Char

/-- View a Lean string literal as a character list. -/
def str (s : String) : Str := s.data

/-- The apostrophe character, written via its code point so that source
string literals containing one can be assembled by concatenation. -/
def apos : Str := [Char.ofNat 39]

/-- Left brace character. -/
def lbr : Char := Char.ofNat 123

/-- Right brace character. -/
def rbr : Char := Char.ofNat 125

/-- ASCII whitespace: the class stripped by Python `str.strip()` and
matched by the regex class `\s` in the sources. -/
def isPyWs (c : Char) : Bool :=
  c = ' ' || c = '\t' || c = '\n' || c = '\x0d' || c = Char.ofNat 11 || c = Char.ofNat 12

/-- Word characters for the regex class `\w` / word boundaries `\b`
(ASCII scope). -/
def isWordChar (c : Char) : Bool :=
  (('a' ≤ c && c ≤ 'z') || ('A' ≤ c && c ≤ 'Z') || ('0' ≤ c && c ≤ '9') || c = '_')

/-- Decimal digit test (regex `\d`, ASCII scope). -/
def isDigitCh (c : Char) : Bool := '0' ≤ c && c ≤ '9'

/-- Python `str.splitlines()` worker, restricted to the LF / CRLF / CR
boundaries; `acc` holds the current line reversed. -/
def splitAux : Str → Str → List Str
  | [], acc => [acc.reverse]
  | '\x0d' :: '\n' :: rest, acc =>
      acc.reverse :: (match rest with
        | [] => []
        | c :: cs => splitAux (c :: cs) [])
  | '\x0d' :: rest, acc =>
      acc.reverse :: (match rest with
        | [] => []
        | c :: cs => splitAux (c :: cs) [])
  | '\n' :: rest, acc =>
      acc.reverse :: (match rest with
        | [] => []
        | c :: cs => splitAux (c :: cs) [])
  | c :: rest, acc => splitAux rest (c :: acc)

/-- Python `str.splitlines()`. -/
def splitLines : Str → List Str
  | [] => []
  | c :: cs => splitAux (c :: cs) []

/-- `"\n".join(lines)`. -/
def joinN : List Str → Str
  | [] => []
  | [x] => x
  | x :: y :: rest => x ++ '\n' :: joinN (y :: rest)

/-- Python `str.lstrip()` (ASCII scope). -/
def pyLstrip (s : Str) : Str := s.dropWhile isPyWs

/-- Python `str.rstrip()` (ASCII scope). -/
def pyRstrip (s : Str) : Str := (s.reverse.dropWhile isPyWs).reverse

/-- Python `str.strip()` (ASCII scope). -/
def pyStrip (s : Str) : Str := pyRstrip (pyLstrip s)

/-- Python substring containment, `needle in hay`. -/
def containsSub (hay needle : Str) : Bool :=
  needle.isPrefixOf hay ||
    match hay with
    | [] => false
    | _ :: t => containsSub t needle

/-- Boolean subsequence test on line lists (greedy matching). -/
def listSub : List Str → List Str → Bool
  | [], _ => true
  | _ :: _, [] => false
  | a :: t1, b :: t2 => if a = b then listSub t1 t2 else listSub (a :: t1) t2

/-- Python `str.lower()` (ASCII scope). -/
def lowerStr (s : Str) : Str := s.map Char.toLower

/-- Python `str.replace("\r\n", "\n")`: left-to-right, non-overlapping. -/
def replaceCRLF : Str → Str
  | [] => []
  | '\x0d' :: '\n' :: rest => '\n' :: replaceCRLF rest
  | c :: rest => c :: replaceCRLF rest

/-- Python `str.startswith(p)`. -/
def startsWith (s p : Str) : Bool := p.isPrefixOf s

/-- Python `str.startswith((p1, p2, ...))`. -/
def startsWithAny (s : Str) (ps : List Str) : Bool := ps.any fun p => startsWith s p

/-- Python `str.endswith(p)`. -/
def endsWith (s p : Str) : Bool := p.isSuffixOf s

/-- `os.path.basename` for POSIX paths: the part after the last slash. -/
def basename (p : Str) : Str := (p.reverse.takeWhile (fun c => c ≠ '/')).reverse

/-- A single decimal digit as a character, as Python `str(n)` renders it. -/
def digitChar : Nat → Char
  | 0 => '0' | 1 => '1' | 2 => '2' | 3 => '3' | 4 => '4'
  | 5 => '5' | 6 => '6' | 7 => '7' | 8 => '8' | _ => '9'

/-- Decimal rendering worker with structural fuel (`fuel ≥ number of
digits` always holds for `fuel = n + 1`). -/
def natDigits : Nat → Nat → Str
  | 0, _ => []
  | fuel + 1, n =>
      if n < 10 then [digitChar n]
      else natDigits fuel (n / 10) ++ [digitChar (n % 10)]

/-- Python `str(n)` for a natural number. -/
def natToStr (n : Nat) : Str := natDigits (n + 1) n

/-- Python `int(digit-string)` for a string of decimal digits. -/
def digitsToNat (ds : Str) : Nat := ds.foldl (fun a c => a * 10 + (c.toNat - 48)) 0

/-!  ## Regex searches used by the Python commenter

`generators.py` uses three regular expressions on (single, break-free)
source lines; they are implemented here as direct scans with the same
leftmost-match semantics as `re.search` / `re.match`.
-/

/-- After a `".split("` occurrence, decide whether the remainder matches
`[^)]*,\s*\d+\s*\)` and return the greedily-matched digit group.  The
character class `[^)]*` together with the final `\)` force the match to
end at the first closing parenthesis, and greediness selects the last
comma before it; scanning the pre-parenthesis segment from its right
end reproduces both. -/
def splitNumAfterParen (s : Str) : Option Nat :=
  let b := s.takeWhile (fun c => c ≠ ')')
  if s.drop b.length = [] then none
  else
    let rb1 := b.reverse.dropWhile isPyWs
    let ds := rb1.takeWhile isDigitCh
    if ds = [] then none
    else
      match (rb1.drop ds.length).dropWhile isPyWs with
      | ',' :: _ => some (digitsToNat ds.reverse)
      | _ => none

/-- `re.search(r"\.split\([^)]*,\s*(\d+)\s*\)", s)`: scan positions left
to right for a `".split("` occurrence whose remainder completes the
pattern; return the digit group of the leftmost full match. -/
def findSplitNum : Str → Option Nat
  | [] => none
  | c :: t =>
      if (str ".split(").isPrefixOf (c :: t) then
        match splitNumAfterParen ((c :: t).drop 7) with
        | some n => some n
        | none => findSplitNum t
      else findSplitNum t

/-- At one position, test keyword followed by `\s*` then `(`. -/
def kwParenAt (kw : Str) (s : Str) : Bool :=
  kw.isPrefixOf s &&
    (match (s.drop kw.length).dropWhile isPyWs with
     | c :: _ => c = '('
     | [] => false)

/-- `re.search(r"\b(kw1|kw2|...)\s*\(", s)` for keywords that start with
a word character: scan positions whose predecessor is not a word
character. -/
def searchWordKwAux (kws : List Str) (prevWord : Bool) : Str → Bool
  | [] => false
  | c :: t =>
      (if prevWord then false else kws.any fun kw => kwParenAt kw (c :: t)) ||
        searchWordKwAux kws (isWordChar c) t

/-- `re.search(r"\b(kw1|...)\s*\(", s)` (the string start is a word
boundary). -/
def searchWordKw (kws : List Str) (s : Str) : Bool := searchWordKwAux kws false s

/-!  ## Python AST

`ast.parse` is external; this inductive covers the node kinds that the
generator code inspects (`isinstance` checks in
`_python_build_comment_maps`, `_python_func_one_liner` and
`_py_expr_to_text`).  Fields not read by the generators (decorator
lists, keyword arguments, comparison tails beyond the first, operator
nodes, `withitem.optional_vars`) are omitted; `With` items are
represented by their `context_expr`. -/
inductive Py where
  | module (body : List Py)
  | funcDef (name : Str) (args : List Str) (lineno : Nat) (body : List Py)
  | classDef (name : Str) (lineno : Nat) (body : List Py)
  | ret (value : Option Py) (lineno : Nat)
  | ifStmt (test : Py) (body : List Py) (orelse : List Py) (lineno : Nat)
  | exprStmt (value : Py)
  | withStmt (items : List Py) (body : List Py)
  | assign (targets : List Py) (value : Py)
  | name (id : Str)
  | attr (value : Py) (attrName : Str)
  | constStr (s : Str)
  | constInt (n : Nat)
  | constBool (b : Bool)
  | constNone
  | call (func : Py) (args : List Py)
  | unaryNot (operand : Py)
  | unaryOther (operand : Py)
  | boolOp (isAnd : Bool) (values : List Py)
  | compare (left : Py) (op : Nat) (comparators : List Py)
  | binOp (left : Py) (right : Py)
deriving Repr

/-- Child nodes in `ast.iter_child_nodes` field order (restricted to the
modelled fields). -/
def Py.children : Py → List Py
  | .module b => b
  | .funcDef _ _ _ b => b
  | .classDef _ _ b => b
  | .ret v _ => v.toList
  | .ifStmt t b e _ => t :: b ++ e
  | .exprStmt v => [v]
  | .withStmt items b => items ++ b
  | .assign tgts v => tgts ++ [v]
  | .name _ => []
  | .attr v _ => [v]
  | .constStr _ => []
  | .constInt _ => []
  | .constBool _ => []
  | .constNone => []
  | .call f args => f :: args
  | .unaryNot v => [v]
  | .unaryOther v => [v]
  | .boolOp _ vs => vs
  | .compare l _ comps => l :: comps
  | .binOp l r => [l, r]

mutual
/-- Node count of a tree (used as walk fuel). -/
def pySize : Py → Nat
  | .module b => 1 + pySizeList b
  | .funcDef _ _ _ b => 1 + pySizeList b
  | .classDef _ _ b => 1 + pySizeList b
  | .ret v _ => 1 + (match v with | some x => pySize x | none => 0)
  | .ifStmt t b e _ => 1 + pySize t + pySizeList b + pySizeList e
  | .exprStmt v => 1 + pySize v
  | .withStmt items b => 1 + pySizeList items + pySizeList b
  | .assign tgts v => 1 + pySizeList tgts + pySize v
  | .name _ => 1
  | .attr v _ => 1 + pySize v
  | .constStr _ => 1
  | .constInt _ => 1
  | .constBool _ => 1
  | .constNone => 1
  | .call f args => 1 + pySize f + pySizeList args
  | .unaryNot v => 1 + pySize v
  | .unaryOther v => 1 + pySize v
  | .boolOp _ vs => 1 + pySizeList vs
  | .compare l _ comps => 1 + pySize l + pySizeList comps
  | .binOp l r => 1 + pySize l + pySize r

/-- Node count of a forest. -/
def pySizeList : List Py → Nat
  | [] => 0
  | x :: xs => pySize x + pySizeList xs
end

/-- `ast.walk`: breadth-first traversal via a queue.  The fuel argument
only serves structural termination; `pySize` bounds the number of queue
pops, so the fuel never runs out in a real traversal. -/
def walkAux : Nat → List Py → List Py
  | 0, _ => []
  | _, [] => []
  | fuel + 1, n :: rest => n :: walkAux fuel (rest ++ n.children)

/-- `ast.walk(t)`. -/
def walk (t : Py) : List Py := walkAux (pySize t) [t]

/-- Parse results as delivered by `_safe_parse_python`:
`(tree, None)` on success, `(None, "Type: msg")` on failure. -/
def safeParsePython (parse : Str → Except Str Py) (code : Str) :
    Option Py × Option Str :=
  match parse code with
  | .ok t => (some t, none)
  | .error e => (none, some e)

/-!  ## generators.py : shared helpers -/

/-- `AUTO_MARKERS` (generators.py, lines 12-23). -/
def AUTO_MARKERS : List Str :=
  [ str "Professional beginner-friendly comments"
  , str "Beginner-friendly comments (auto-added)"
  , str "Beginner-friendly notes (auto-added)"
  , str "Beginner-friendly CSS notes (auto-added)"
  , str "Beginner-friendly JS notes (auto-added)"
  , str "Beginner-friendly Java notes (auto-added)"
  , str "Professional beginner-friendly notes"
  , str "Professional beginner-friendly CSS notes"
  , str "Professional beginner-friendly JS notes"
  , str "Professional beginner-friendly Java notes" ]

/-- Loop body of `_clean_existing_auto_headers`: drop marker lines and,
while `skipping`, every following line up to and including the first
blank one. -/
def cleanLoop : List Str → Bool → List Str
  | [], _ => []
  | line :: rest, skipping =>
      if AUTO_MARKERS.any (fun m => containsSub (lowerStr line) (lowerStr m)) then
        cleanLoop rest true
      else if skipping then
        if pyStrip line = [] then cleanLoop rest false
        else cleanLoop rest true
      else line :: cleanLoop rest skipping

/-- `_clean_existing_auto_headers` (generators.py, lines 26-47). -/
def cleanExistingAutoHeaders (code : Str) : Str :=
  let out := cleanLoop (splitLines code) false
  pyStrip (joinN out) ++ (if code.getLast? = some '\n' then [ '\n' ] else [])

/-- `_filename_title` (generators.py, lines 50-52). -/
def filenameTitle (filePath language : Str) : Str :=
  (if filePath ≠ [] then basename filePath else str "pasted_code") ++
    str " (" ++ language ++ str ")"

/-- Render one section of `_doc_sectioned_no_code` as bullet lines. -/
def bullets (xs : List Str) : List Str := xs.map fun x => str "- " ++ x

/-- `_doc_sectioned_no_code` (generators.py, lines 55-95). -/
def docSectionedNoCode (title : Str) (whatItDoes requirements howToRun
    logic examples edgeCases : List Str) : Str :=
  let lines : List Str :=
    [ str "# " ++ title, [] ] ++
    [ str "## What it does" ] ++ bullets whatItDoes ++ [ [] ] ++
    [ str "## Requirements" ] ++ bullets requirements ++ [ [] ] ++
    [ str "## How to run" ] ++ howToRun ++ [ [] ] ++
    [ str "## Explanation of logic" ] ++ bullets logic ++ [ [] ] ++
    [ str "## Example input/output" ] ++ bullets examples ++ [ [] ] ++
    [ str "## Edge cases / notes" ] ++ bullets edgeCases ++ [ [] ]
  pyStrip (joinN lines) ++ [ '\n' ]

/-!  ## generators.py : the Python analyzer -/

/-- Comparison operator texts of `_py_expr_to_text`, indexed in the
order of the `op_map` dictionary (generators.py, lines 169-181);
index 10 stands for any unmapped operator. -/
def cmpOpText (op : Nat) : Str :=
  match op with
  | 0 => str "equals"
  | 1 => str "does not equal"
  | 2 => str "is less than"
  | 3 => str "is less than or equal to"
  | 4 => str "is greater than"
  | 5 => str "is greater than or equal to"
  | 6 => str "is"
  | 7 => str "is not"
  | 8 => str "is in"
  | 9 => str "is not in"
  | _ => str "compares to"

/-- The non-recursive tail of the `Call` branch of `_py_expr_to_text`:
the well-known-callee checks after the `len` case.  Each source test
`fn.endswith(x) or fn == x` collapses to `fn.endswith(x)`, since every
string is a suffix of itself. -/
def pyCallText (fn : Str) : Str :=
  if endsWith fn (str "isalpha") || endsWith fn (str "isdigit") then
    fn ++ str "() check"
  else if endsWith fn (str "strptime") then str "parse a datetime"
  else if endsWith fn (str "split") then str "split text"
  else if endsWith fn (str "lower") then str "lowercase text"
  else if endsWith fn (str "upper") then str "uppercase text"
  else if endsWith fn (str "float") then str "convert to float"
  else if endsWith fn (str "int") then str "convert to int"
  else if endsWith fn (str "str") then str "convert to string"
  else fn ++ str "(...)"

mutual
/-- `_py_expr_to_text` (generators.py, lines 109-189). -/
def pyExprToText : Py → Str
  | .name id => id
  | .attr v a => pyExprToText v ++ str "." ++ a
  | .constStr s => '"' :: s ++ [ '"' ]
  | .constInt n => natToStr n
  | .constBool b => if b then str "True" else str "False"
  | .constNone => str "None"
  | .call f args =>
      let fn := pyExprToText f
      match args with
      | a :: _ =>
          if endsWith fn (str "len") then str "length of " ++ pyExprToText a
          else pyCallText fn
      | [] => pyCallText fn
  | .unaryNot v => str "not (" ++ pyExprToText v ++ str ")"
  | .unaryOther v => str "unary-op( " ++ pyExprToText v ++ str " )"
  | .boolOp isAnd vs =>
      joinSep (if isAnd then str " and " else str " or ") (pyExprTexts vs)
  | .compare l op comps =>
      (match comps with
       | [] => pyExprToText l
       | c :: _ => pyExprToText l ++ str " " ++ cmpOpText op ++ str " " ++ pyExprToText c)
  | .binOp _ _ => str "a calculated value"
  | _ => str "a value"

/-- Map `_py_expr_to_text` over a node list. -/
def pyExprTexts : List Py → List Str
  | [] => []
  | x :: xs => pyExprToText x :: pyExprTexts xs

/-- `sep.join(parts)`. -/
def joinSep (sep : Str) : List Str → Str
  | [] => []
  | [x] => x
  | x :: y :: rest => x ++ sep ++ joinSep sep (y :: rest)
end

/-- `_py_condition_to_reason` (generators.py, lines 192-198). -/
def pyConditionToReason (test : Py) : Str := str "because " ++ pyExprToText test

/-- `_python_func_one_liner` (generators.py, lines 201-240). -/
def pythonFuncOneLiner (fn : Py) : Option Str :=
  match fn with
  | .funcDef _ _ _ body =>
      if body.isEmpty then none
      else
        let body1 :=
          match body with
          | .exprStmt (.constStr _) :: rest => rest
          | _ => body
        if body1.isEmpty then none
        else if (match body1 with | [ .ret _ _ ] => true | _ => false) then
          some (str "Computes and returns a result.")
        else
          match (walk fn).findSome? (fun node =>
            match node with
            | .withStmt items _ =>
                if items.any (fun item =>
                    match item with
                    | .call (.name fnName) _ => fnName = str "open"
                    | _ => false) then
                  some (str "Reads a file and processes its contents.")
                else none
            | _ => none) with
          | some s => some s
          | none =>
              (walk fn).findSome? (fun node =>
                match node with
                | .call (.attr _ a) _ =>
                    if a = str "strptime" then
                      some (str "Parses text into datetime values.")
                    else none
                | _ => none)
  | _ => none

/-- Insert-or-overwrite into a line-number-keyed map (Python dictionary
assignment `m[k] = v`). -/
def mapInsert (m : List (Nat × Str)) (k : Nat) (v : Str) : List (Nat × Str) :=
  if m.any (fun p => p.1 = k) then
    m.map fun p => if p.1 = k then (k, v) else p
  else m ++ [(k, v)]

/-- `_python_build_comment_maps` (generators.py, lines 243-278):
def/class comments keyed by line number, and early-return reasons
keyed by the return line. -/
def pythonBuildCommentMaps (parse : Str → Except Str Py) (code : Str) :
    List (Nat × Str) × List (Nat × Str) :=
  match (safeParsePython parse code).1 with
  | none => ([], [])
  | some tree =>
      let defMap := (walk tree).foldl (fun m node =>
        match node with
        | .classDef nm lineno _ =>
            mapInsert m lineno
              (str "# Class `" ++ nm ++ str "`: a blueprint that groups data and behavior.")
        | .funcDef nm args lineno body =>
            (match pythonFuncOneLiner (.funcDef nm args lineno body) with
             | some hint => mapInsert m lineno (str "# Function `" ++ nm ++ str "()`: " ++ hint)
             | none =>
                 mapInsert m lineno
                   (str "# Function `" ++ nm ++ str "()`: runs a reusable set of steps."))
        | _ => m) []
      let retMap := (walk tree).foldl (fun m node =>
        match node with
        | .ifStmt test body _ _ =>
            (match body with
             | [ .ret _ retLine ] =>
                 mapInsert m retLine
                   (str "# Stop here " ++ pyConditionToReason test ++ str ".")
             | _ => m)
        | _ => m) []
      (defMap, retMap)

/-- `_py_should_comment_line` (generators.py, lines 281-330). -/
def pyShouldCommentLine (s : Str) : Bool :=
  if s = [] || startsWith s (str "#") then false
  else if startsWithAny s
      [ str "def ", str "class ", str "if __name__", str "for ", str "while "
      , str "try:", str "except", str "with " ] then true
  else if startsWithAny s [ str "import ", str "from " ] then true
  else if containsSub s (str "lambda ") then true
  else if containsSub s (str " for ") && (containsSub s (str "[") && containsSub s (str "]")) then true
  else if containsSub s (str "join(") && containsSub s (str " for ") then true
  else if containsSub s (str ".split(") && (findSplitNum s).isSome then true
  else if containsSub s (str "datetime.strptime") then true
  else if startsWith s (str "@dataclass") || containsSub s (str "dataclass(") then true
  else if containsSub s (str "enumerate(") then true
  else if containsSub s (str "zip(") then true
  else if containsSub s (str "sorted(") || containsSub s (str ".sort(") then true
  else if startsWith s (str "return") then true
  else if [ str ".append(", str ".get(", str ".setdefault(", str ".update(" ].any
      (fun x => containsSub s x) then true
  else if searchWordKw [ str "int", str "float", str "str", str "bool" ] s then true
  else false

/-- The comment emitted for a `.split(..., n)` line. -/
def splitComment (n : Nat) : Str :=
  str "# split(..., " ++ natToStr n ++ str "): split into at most " ++
    natToStr (n + 1) ++ str " parts (keeps the remaining text together)."

/-- Tail of the `_py_comment_for_line` check chain, after the split
branch (generators.py, lines 365-407); `st` is the stripped line. -/
def pyCommentRest (st : Str) : Option Str :=
  if containsSub st (str "datetime.strptime") then
      some (str "# Convert a timestamp string into a real datetime value.")
    else if (containsSub st (str "[") && containsSub st (str "]")) && containsSub st (str " for ") then
      some (str "# List comprehension: build a list by looping in one line.")
    else if containsSub st (str "join(") && containsSub st (str " for ") then
      some (str "# Build one string by joining many pieces.")
    else if containsSub st (str "lambda ") then
      some (str "# lambda: a tiny one-line function (often used for sorting).")
    else if containsSub st (str "enumerate(") then
      some (str "# enumerate(...): loop while also getting the index number.")
    else if containsSub st (str "zip(") then
      some (str "# zip(...): pair items from multiple lists together.")
    else if containsSub st (str "sorted(") then
      some (str "# sorted(...): create a new sorted list.")
    else if containsSub st (str ".sort(") then
      if containsSub st (str "key=") then
        some (str "# sort(key=...): reorder items using a rule (the key chooses what to sort by).")
      else some (str "# sort(): reorder the list in place.")
    else if containsSub st (str ".append(") then
      some (str "# append(): add an item to the end of the list.")
    else if containsSub st (str ".get(") then
      some (str "# dict.get(...): read a value safely (uses a default if missing).")
    else if containsSub st (str ".setdefault(") then
      some (str "# setdefault(...): get a value, or create it if it doesn" ++ apos ++ str "t exist.")
    else if searchWordKw [ str "int" ] st then
      some (str "# int(...): convert to a whole number.")
    else if searchWordKw [ str "float" ] st then
      some (str "# float(...): convert to a decimal number.")
    else if searchWordKw [ str "str" ] st then
      some (str "# str(...): convert to text.")
    else if startsWith st (str "return ") then
      some (str "# Return: send the result back to whoever called this function.")
    else none

/-- Head of the `_py_comment_for_line` check chain on the stripped line
(generators.py, lines 333-363), falling through to `pyCommentRest`. -/
def pyCommentChecks (st : Str) : Option Str :=
  if startsWith st (str "@dataclass") then
    if containsSub (st.filter (fun c => c ≠ ' ')) (str "frozen=True") then
      some (str "# dataclass(frozen=True): makes objects immutable (fields cannot be changed).")
    else some (str "# dataclass: auto-creates __init__ and other helper methods for a data class.")
  else if startsWith st (str "if __name__") then
    some (str "# This part runs only when the file is executed directly.")
  else if startsWith st (str "for ") then
    some (str "# Loop: repeat the indented block for each item.")
  else if startsWith st (str "while ") then
    some (str "# Loop: keep repeating while the condition stays true.")
  else if st = str "try:" then
    some (str "# Try: run code that might fail; handle errors in `except`.")
  else if startsWith st (str "except") then
    some (str "# Except: handle a specific error so the program doesn" ++ apos ++ str "t crash.")
  else if startsWith st (str "with ") && containsSub st (str "open(") then
    some (str "# Open a file safely. It auto-closes when this block ends.")
  else if containsSub st (str ".split(") && (findSplitNum st).isSome then
    match findSplitNum st with
    | some n => some (splitComment n)
    | none => pyCommentRest st
  else pyCommentRest st

/-- `_py_comment_for_line` (generators.py, lines 333-407): the source
computes `st = s.strip()` once and runs the check chain on it. -/
def pyCommentForLine (s : Str) : Option Str := pyCommentChecks (pyStrip s)

/-- Leading whitespace of a line, `re.match(r"^\s*", line).group(0)`. -/
def indentOf (line : Str) : Str := line.takeWhile isPyWs

/-- Pair an import-block: `lines[i].strip().startswith(("import ", "from "))`. -/
def isImportLine (line : Str) : Bool :=
  startsWithAny (pyStrip line) [ str "import ", str "from " ]

/-- The fixed comment placed above each import block. -/
def importsComment : Str := str "# Imports: bring in libraries this file depends on."

/-- The import-grouping `while` loop of `_python_add_comments`
(generators.py, lines 421-435), written as a line-by-line state machine:
`inRun` records whether the previous line belonged to an import run (the
source's inner `while` plus the blank line appended after each run). -/
def groupImports : List Str → Bool → List Str
  | [], inRun => if inRun then [ [] ] else []
  | line :: rest, inRun =>
      if isImportLine line then
        (if inRun then [] else [importsComment]) ++ line :: groupImports rest true
      else
        (if inRun then [ [] ] else []) ++ line :: groupImports rest false

/-- The comment lines inserted before one line of `rebuilt` by the
final annotation loop of `_python_add_comments` (generators.py, lines
439-464): the AST def/class comment, else the AST early-return reason,
else the general targeted comment. -/
def insertedBefore (defMap retMap : List (Nat × Str)) (idx : Nat) (line : Str) : List Str :=
  let s := pyStrip line
  match defMap.lookup idx, startsWithAny s [ str "def ", str "class " ] with
  | some c, true => [indentOf line ++ c]
  | _, _ =>
      match retMap.lookup idx, startsWith s (str "return") with
      | some c, true => [indentOf line ++ c]
      | _, _ =>
          if pyShouldCommentLine s then
            match pyCommentForLine s with
            | some c => [indentOf line ++ c]
            | none => []
          else []

/-- The final annotation loop of `_python_add_comments` (generators.py,
lines 439-464), enumerating `rebuilt` from `idx = 1`. -/
def annotateLines (defMap retMap : List (Nat × Str)) : Nat → List Str → List Str
  | _, [] => []
  | idx, line :: rest =>
      insertedBefore defMap retMap idx line ++
        line :: annotateLines defMap retMap (idx + 1) rest

/-- The `# File:` header line. -/
def fileHeader (filePath : Str) : Str :=
  str "# File: " ++ (if filePath ≠ [] then basename filePath else str "pasted_code")

/-- The annotated line list `final` built by `_python_add_comments`
before the final join / rstrip (generators.py, lines 410-464). -/
def pythonFinalLines (parse : Str → Except Str Py) (code filePath : Str) : List Str :=
  let code := cleanExistingAutoHeaders code
  let lines := splitLines code
  let maps := pythonBuildCommentMaps parse code
  let out := fileHeader filePath :: [] :: groupImports lines false
  let rebuilt := splitLines (joinN out)
  annotateLines maps.1 maps.2 1 rebuilt

/-- `_python_add_comments` (generators.py, lines 410-466): the final
line list, joined, right-stripped, with one newline appended. -/
def pythonAddComments (parse : Str → Except Str Py) (code filePath : Str) : Str :=
  pyRstrip (joinN (pythonFinalLines parse code filePath)) ++ [ '\n' ]

/-- `_python_docs` (generators.py, lines 469-513). -/
def pythonDocs (parse : Str → Except Str Py) (code filePath : Str) : Str :=
  let parsed := safeParsePython parse code
  let hasInput := containsSub (lowerStr code) (str "input(")
  let what :=
    if hasInput then [ str "Runs in the terminal and asks the user for input." ]
    else [ str "Defines functions/classes and runs logic when executed." ]
  let requirements := [ str "Python 3 installed" ]
  let how :=
    [ str "1. Open a terminal in the folder containing the file."
    , str "2. Run: `python " ++
        (if filePath ≠ [] then basename filePath else str "main.py") ++ str "`"
    , str "3. Follow any prompts (if the script asks for input)." ]
  let logic :=
    [ str "Python reads the file from top to bottom."
    , str "Imports load first, then functions/classes are defined."
    , str "The `if __name__ == " ++ apos ++ str "__main__" ++ apos ++
        str "` block runs only when executed directly."
    , str "Many scripts validate inputs early and return/exit when data is invalid." ]
  let examples :=
    [ str "Input: user input (if used) or function arguments."
    , str "Output: printed text or returned values depending on the code." ]
  let edge :=
    (match parsed.1 with
     | none => [ str "Syntax/indentation error: " ++ parsed.2.getD (str "None") ]
     | some _ => []) ++
    [ str "If the code reads files, the file must exist (unless handled)."
    , str "Bad formats (dates/numbers) can cause errors unless handled with try/except." ]
  docSectionedNoCode (filenameTitle filePath (str "python"))
    what requirements how logic examples edge

/-- Output dictionary of the generators: `commented_code`,
`documentation` and the optional `note` key added by `generate_any`. -/
structure GenOut where
  commented_code : Str
  documentation : Str
  note : Option Str := none
deriving Repr, DecidableEq

/-- `generate_python_docs` (generators.py, lines 516-521). -/
def generatePythonDocs (parse : Str → Except Str Py) (code : Str)
    (filePath : Str := str "pasted_code") : GenOut :=
  let codeClean := replaceCRLF code
  { commented_code := pythonAddComments parse codeClean filePath
  , documentation := pythonDocs parse codeClean filePath }

/-!  ## generators.py : the language dispatcher

The JavaScript / HTML / CSS / Java surface commenters
(`_comment_js` / `_js_docs`, `_comment_html` / `_html_docs`,
`_comment_css` / `_css_docs`, `_comment_java` / `_java_docs`,
generators.py lines 524-990) are pure string functions whose internals
none of the claims under study depend on; the dispatcher receives them
as a bundle of pure functions with the call shapes used in the source
(`commenter(code_clean, file_path)` and `docs(file_path)`). -/
structure LangImpls where
  commentJs : Str → Str → Str
  docsJs : Str → Str
  commentHtml : Str → Str → Str
  docsHtml : Str → Str
  commentCss : Str → Str → Str
  docsCss : Str → Str
  commentJava : Str → Str → Str
  docsJava : Str → Str

/-- The trivial pass-through applied when no language branch matches
(`generate_simple_docs`, line 1025): CRLF sequences normalised to LF,
trailing whitespace replaced by a single newline, no comment lines. -/
def passThrough (code : Str) : Str := pyRstrip (replaceCRLF code) ++ [ '\n' ]

/-- The fallthrough documentation of `generate_simple_docs`
(generators.py, lines 1016-1024). -/
def unknownDoc (filePath language : Str) : Str :=
  docSectionedNoCode
    (filenameTitle filePath (if language ≠ [] then language else str "unknown"))
    [ str "Part of a software project." ]
    [ str "Depends on the project." ]
    [ str "Depends on the project." ]
    [ str "Depends on the code." ]
    [ str "Depends on the code." ]
    [ str "No extra notes." ]

/-- `generate_simple_docs` (generators.py, lines 997-1025). -/
def generateSimpleDocs (parse : Str → Except Str Py) (impls : LangImpls)
    (language code : Str) (filePath : Str := str "pasted_code") : GenOut :=
  let language := pyStrip (lowerStr language)
  let codeClean := replaceCRLF code
  if language = str "python" then generatePythonDocs parse codeClean filePath
  else if language = str "javascript" then
    { commented_code := impls.commentJs codeClean filePath
    , documentation := impls.docsJs filePath }
  else if language = str "html" then
    { commented_code := impls.commentHtml codeClean filePath
    , documentation := impls.docsHtml filePath }
  else if language = str "css" then
    { commented_code := impls.commentCss codeClean filePath
    , documentation := impls.docsCss filePath }
  else if language = str "java" then
    { commented_code := impls.commentJava codeClean filePath
    , documentation := impls.docsJava filePath }
  else
    { commented_code := pyRstrip codeClean ++ [ '\n' ]
    , documentation := unknownDoc filePath language }

/-!  ## main.py -/

/-- `EXTENSIONS_BY_LANGUAGE` (main.py, lines 70-76), in dictionary
insertion order. -/
def EXTENSIONS_BY_LANGUAGE : List (Str × List Str) :=
  [ (str "python", [ str ".py" ])
  , (str "javascript", [ str ".js" ])
  , (str "html", [ str ".html", str ".htm" ])
  , (str "css", [ str ".css" ])
  , (str "java", [ str ".java" ]) ]

/-- `ALL_SUPPORTED_EXTS` (main.py, line 78): the sorted set of all
mapped extensions. -/
def ALL_SUPPORTED_EXTS : List Str :=
  [ str ".css", str ".htm", str ".html", str ".java", str ".js", str ".py" ]

/-- `os.path.splitext(p)[1]` for POSIX paths: the suffix from the last
dot of the basename, provided some earlier basename character is not a
dot (so dot-files such as `.bashrc` have no extension). -/
def splitextExt (p : Str) : Str :=
  let b := basename p
  let revTail := b.reverse.takeWhile (fun c => c ≠ '.')
  let revRest := b.reverse.drop revTail.length
  match revRest with
  | '.' :: pre => if pre.any (fun c => c ≠ '.') then '.' :: revTail.reverse else []
  | _ => []

/-- `guess_language_from_filename` (main.py, lines 92-97). -/
def guessLanguageFromFilename (filename : Str) : Option Str :=
  let ext := splitextExt (lowerStr filename)
  (EXTENSIONS_BY_LANGUAGE.find? (fun p => ext ∈ p.2)).map (·.1)

/-- `generate_rule_based` (main.py, lines 100-108). -/
def generateRuleBased (parse : Str → Except Str Py) (impls : LangImpls)
    (language code : Str) (filePath : Str := []) : GenOut :=
  if language = str "python" then generatePythonDocs parse code filePath
  else generateSimpleDocs parse impls language code filePath

/-- `re.match(r"^(return|var|let|const|public|private|function)\b", t, re.I)`:
a case-insensitive keyword at the start of the string, followed by a
word boundary. -/
def startsWithCodeKw (t : Str) : Bool :=
  [ str "return", str "var", str "let", str "const", str "public"
  , str "private", str "function" ].any fun kw =>
    (lowerStr kw).isPrefixOf (lowerStr t) &&
      (match t.drop kw.length with
       | [] => true
       | c :: _ => !isWordChar c)

/-- `_looks_like_bad_ai_summary` (main.py, lines 111-124). -/
def looksLikeBadAiSummary (text : Str) : Bool :=
  let t := pyStrip text
  if t = [] then true
  else if t.length < 12 then true
  else if t.contains ';' || t.contains lbr || t.contains rbr then true
  else if startsWithCodeKw t then true
  else false

/-- Note texts added by `generate_any`. -/
def aiDisabledNote : Str :=
  str "AI was requested, but AI is disabled on this server. Used rule-based output."

/-- Note for a rejected AI summary. -/
def aiRejectedNote : Str :=
  str "AI was requested, but the AI summary looked like raw code, so it was ignored."

/-- Note for a failing local model (`except` branch of `generate_any`);
the argument is the stringified exception. -/
def aiFailedNote (e : Str) : Str :=
  str "AI failed; used rule-based output instead. Error: " ++ e

/-- `generate_any` (main.py, lines 127-161).  The environment enters as
parameters: `aiAvailable` models `_local_ai_is_available()`, and
`localModel` models `_generate_with_local_model` (its `except` branch is
an `Except.error` carrying the stringified exception). -/
def generateAny (parse : Str → Except Str Py) (impls : LangImpls)
    (aiAvailable : Bool) (localModel : Str → Except Str Str)
    (language code filePath : Str) (useAi : Bool) : GenOut :=
  let base := generateRuleBased parse impls language code filePath
  if !useAi then base
  else if !aiAvailable then { base with note := some aiDisabledNote }
  else
    match localModel code with
    | .error e => { base with note := some (aiFailedNote e) }
    | .ok aiSummary =>
        if looksLikeBadAiSummary aiSummary then
          { base with note := some aiRejectedNote }
        else
          let newDoc :=
            str "## AI One-line Summary (optional)" ++ [ '\n' ] ++ str "- " ++
              pyStrip aiSummary ++ [ '\n', '\n' ] ++ base.documentation
          { base with documentation := newDoc }

/-- One member of an uploaded ZIP archive, with its content already
decoded (`bytes.decode("utf-8", errors="replace")`). -/
structure ZipEntry where
  filename : Str
  isDir : Bool
  content : Str

/-- One processed entry of `read_zip_and_generate`. -/
structure ZipResult where
  file : Str
  language : Str
  commented_code : Str
  documentation : Str
  note : Option Str

/-- The truthiness chain
`preferred_language or guess_language_from_filename(path) or "unknown"`
(main.py, line 192): empty strings and `None` are falsy. -/
def chooseLanguage (preferred : Option Str) (path : Str) : Str :=
  match preferred with
  | some p => if p ≠ [] then p else (guessLanguageFromFilename path).getD (str "unknown")
  | none => (guessLanguageFromFilename path).getD (str "unknown")

/-- `read_zip_and_generate` (main.py, lines 169-205).  The per-file
generator `genAny` stands for `generate_any` partially applied to the
process environment; it receives `(language, code, path, use_ai)`
exactly as in the source call. -/
def readZipAndGenerate (genAny : Str → Str → Str → Bool → GenOut)
    (entries : List ZipEntry) (preferred : Option Str) (useAi : Bool) :
    List ZipResult × List Str :=
  match entries with
  | [] => ([], [])
  | e :: rest =>
      let tailRes := readZipAndGenerate genAny rest preferred useAi
      if e.isDir then tailRes
      else
        let ext := splitextExt (lowerStr e.filename)
        if ext ∉ ALL_SUPPORTED_EXTS then (tailRes.1, e.filename :: tailRes.2)
        else
          let lang := chooseLanguage preferred e.filename
          let out := genAny lang e.content e.filename useAi
          ({ file := e.filename
           , language := lang
           , commented_code := out.commented_code
           , documentation := out.documentation
           , note := out.note } :: tailRes.1, tailRes.2)

/-- The module-level mutable state of the backend process: the lazily
initialised local-model cache of `local_model.py` (`_tokenizer`,
`_model`).  The rule-based path reads and writes none of it. -/
structure ProcState where
  tokenizerLoaded : Bool
  modelLoaded : Bool
deriving DecidableEq

/-- `generate_rule_based` as a state transformer over the process-wide
mutable state: the source body only calls pure string functions and
never touches module-level variables, so the state passes through
untouched. -/
def generateRuleBasedRun (parse : Str → Except Str Py) (impls : LangImpls)
    (st : ProcState) (language code filePath : Str) : GenOut × ProcState :=
  (generateRuleBased parse impls language code filePath, st)

/-!  ## llm_provider.py -/

/-- JSON values, as returned by `json.loads`. -/
inductive Json where
  | null
  | bool (b : Bool)
  | num (n : Int)
  | jstr (s : Str)
  | arr (items : List Json)
  | obj (fields : List (Str × Json))
deriving Repr

/-- The fallback value of `generate_with_llm` (llm_provider.py, lines
69-72): the original code, unchanged, with an explanatory
documentation string. -/
def llmFallback (code : Str) : Json :=
  .obj [ (str "commented_code", .jstr code)
       , (str "documentation", .jstr (str "LLM output parsing failed. Returned original code.")) ]

/-- The recovery slice `text[start:end+1]` with
`start = text.find("{")`, `end = text.rfind("}")`, guarded by
`start != -1 and end != -1 and end > start` (llm_provider.py, lines
61-63). -/
def braceSlice (text : Str) : Option Str :=
  match text.findIdx? (fun c => c = lbr),
        (text.reverse.findIdx? (fun c => c = rbr)).map (fun i => text.length - 1 - i) with
  | some start, some stop =>
      if start < stop then some ((text.drop start).take (stop + 1 - start)) else none
  | _, _ => none

/-- `generate_with_llm` (llm_provider.py, lines 41-72), modelled from
the point where the hosted response text is in hand.  `loads` stands
for `json.loads`, returning `none` where the library would raise
`JSONDecodeError`.  A successful parse is returned as-is — the source
performs no shape validation on the parsed value. -/
def generateWithLlm (loads : Str → Option Json) (responseText code : Str) : Json :=
  match loads (pyStrip responseText) with
  | some j => j
  | none =>
      match braceSlice (pyStrip responseText) with
      | some sub =>
          match loads sub with
          | some j => j
          | none => llmFallback code
      | none => llmFallback code

/-- The response shape the prompt contract expects: a JSON object with
exactly the two string fields `commented_code` and `documentation`. -/
def isTwoFieldResult : Json → Bool
  | .obj fields =>
      decide (fields.length = 2) &&
        (match fields.find? (fun p => p.1 = str "commented_code") with
         | some (_, .jstr _) => true
         | _ => false) &&
        (match fields.find? (fun p => p.1 = str "documentation") with
         | some (_, .jstr _) => true
         | _ => false)
  | _ => false

/-!  ## Side conditions for the general theorems -/

/-- A string with no line boundaries (single-line). -/
def lineFree (s : Str) : Bool := !(s.contains '\n' || s.contains '\x0d')

/-- All comments of an AST-derived comment map are single-line.  This
holds for every map CPython's `ast.parse` can give rise to whose
identifiers and rendered condition texts contain no newline (Python
identifiers never do). -/
def MapsLineFree (m : List (Nat × Str)) : Prop := ∀ p ∈ m, lineFree p.2 = true

/-!  ## Concrete fixtures

Each `parse…` function below records, as a Lean term, the syntax tree
that CPython's `ast.parse` produces for the concrete inputs it is used
with in the theorems. -/

/-- `ast.parse` on the empty string, on a bare newline and on
comment-only text yields an empty `Module` body. -/
def parseEmptyModule : Str → Except Str Py := fun _ => .ok (.module [])

/-- The tree of `ast.parse("def add(a, b):\n    return a + b\n")`:
one function of two arguments at line 1 whose body is a single
`Return` of a `BinOp` at line 2. -/
def addTree : Py :=
  .module [ .funcDef (str "add") [ str "a", str "b" ] 1
    [ .ret (some (.binOp (.name (str "a")) (.name (str "b")))) 2 ] ]

/-- Parse function for the `add` scenario (constant: the annotator
parses the cleaned code, the docs builder the normalised code; both
strings coincide with the input here). -/
def parseAdd : Str → Except Str Py := fun _ => .ok addTree

/-- The worked example input of the specification. -/
def addInput : Str := str "def add(a, b):\n    return a + b\n"

/-- The tree of `ast.parse("x")`: a single expression statement. -/
def parseNameX : Str → Except Str Py :=
  fun _ => .ok (.module [ .exprStmt (.name (str "x")) ])

/-- The tree of `ast.parse("y\n")`: a single expression statement. -/
def parseNameY : Str → Except Str Py :=
  fun _ => .ok (.module [ .exprStmt (.name (str "y")) ])

/-- A parse failure, as `_safe_parse_python` stringifies it. -/
def parseFailSyntax : Str → Except Str Py :=
  fun _ => .error (str "SyntaxError: invalid syntax")

/-- An input whose first line contains an `AUTO_MARKERS` substring, so
the cleanup pass removes both lines. -/
def markerInput : Str :=
  str "Beginner-friendly comments (auto-added)\nxxxxxxxxxxxxxxxxxxxxxxxxxx\n"

/-- A trivial commenter bundle for witness instantiations. -/
def trivImpls : LangImpls :=
  { commentJs := fun code _ => code, docsJs := fun _ => []
  , commentHtml := fun code _ => code, docsHtml := fun _ => []
  , commentCss := fun code _ => code, docsCss := fun _ => []
  , commentJava := fun code _ => code, docsJava := fun _ => [] }

/-- The ZIP of the extension-routing scenario: members `a.py`, `b.txt`,
`c.java`. -/
def demoZip : List ZipEntry :=
  [ { filename := str "a.py", isDir := false, content := str "x = 1" ++ [ '\n' ] }
  , { filename := str "b.txt", isDir := false, content := str "hello" }
  , { filename := str "c.java", isDir := false, content := str "class A" } ]

/-- A trivial per-file generator for witness instantiations. -/
def trivGen : Str → Str → Str → Bool → GenOut :=
  fun _ code _ _ => { commented_code := code, documentation := [] }

/-- A model summary that is raw code (contains a semicolon and starts
with a keyword). -/
def c7Summary : Str := str "return a + b; // summed"

/-- `json.loads` on the response text `"[1, 2]"` yields the list
`[1, 2]`; this function records that value. -/
def loadsArr12 : Str → Option Json :=
  fun s => if s = str "[1, 2]" then some (.arr [ .num 1, .num 2 ]) else none

set_option maxRecDepth 1000000

/-!  ## Claim C1 -/

/-- Claim C1: running `_python_add_comments` (which itself begins with
`_clean_existing_auto_headers`) twice is claimed to be idempotent.  The
code violates this: on the empty input the first run yields the header
alone, and the second run — whose cleanup pass removes nothing, because
the emitted `# File:` header contains no `AUTO_MARKERS` substring —
prepends a second header.  The per-line comments duplicate the same way.
This theorem evaluates the code at the failing input. -/
theorem claim_C1_eval :
    pythonAddComments parseEmptyModule [] (str "pasted_code") =
      str "# File: pasted_code" ++ [ '\n' ] ∧
    pythonAddComments parseEmptyModule
        (pythonAddComments parseEmptyModule [] (str "pasted_code")) (str "pasted_code") =
      str "# File: pasted_code" ++ [ '\n', '\n' ] ++ str "# File: pasted_code" ++ [ '\n' ] ∧
    pythonAddComments parseEmptyModule
        (pythonAddComments parseEmptyModule [] (str "pasted_code")) (str "pasted_code") ≠
      pythonAddComments parseEmptyModule [] (str "pasted_code") :=
  ⟨rfl, rfl, by decide⟩

/-!  ## Claim C4 -/

/-- Claim C4, counterexample.  For the worked example input, the
commented output contains no phrase describing the returned value as a
combination of two operands (no `combin…`, no `operand`, no `sum`),
and the documentation cannot enumerate the one detected function: it
never mentions `add` and is character-identical to the documentation
produced for the function-free input `"y\n"`. -/
theorem claim_C4_counterexample :
    containsSub (generatePythonDocs parseAdd addInput (str "pasted_code")).documentation
      (str "add") = false ∧
    (generatePythonDocs parseAdd addInput (str "pasted_code")).documentation =
      (generatePythonDocs parseNameY (str "y" ++ [ '\n' ]) (str "pasted_code")).documentation ∧
    containsSub (generatePythonDocs parseAdd addInput (str "pasted_code")).commented_code
      (str "combin") = false ∧
    containsSub (generatePythonDocs parseAdd addInput (str "pasted_code")).commented_code
      (str "operand") = false ∧
    containsSub (generatePythonDocs parseAdd addInput (str "pasted_code")).commented_code
      (str "sum") = false :=
  ⟨by decide, rfl, by decide, by decide, by decide⟩

/-- Claim C4, amended: for the worked example input, the commented
output retains both original lines verbatim, in order, with a generic
comment line (`# Return: send the result back to whoever called this
function.`) inserted before the return line; the documentation string
is the fixed Python report, which does not name the detected function.
(The AST comment `Computes and returns a result.` is keyed to source
line 1 but the inserted header shifts the `def` line to index 3, so it
is never emitted.) -/
theorem claim_C4_amended :
    (generatePythonDocs parseAdd addInput (str "pasted_code")).commented_code =
      str "# File: pasted_code" ++ [ '\n', '\n' ] ++ str "def add(a, b):" ++ [ '\n' ] ++
        str "    # Return: send the result back to whoever called this function." ++
        [ '\n' ] ++ str "    return a + b" ++ [ '\n' ] ∧
    listSub (splitLines addInput)
      (splitLines (generatePythonDocs parseAdd addInput (str "pasted_code")).commented_code) =
      true ∧
    containsSub (generatePythonDocs parseAdd addInput (str "pasted_code")).documentation
      (str "add") = false :=
  ⟨rfl, by decide, by decide⟩

/-!  ## Claim C5 (counterexample; the amended theorem follows the lemma
suite below) -/

/-- Claim C5, counterexample.  The rewritten text can be shorter than
the trivial pass-through of the input: the cleanup pass deletes the
marker line and the non-blank line after it, so the output is just the
header while the pass-through keeps the whole input. -/
theorem claim_C5_counterexample :
    ¬ ((passThrough markerInput).length ≤
        (pythonAddComments parseEmptyModule markerInput (str "pasted_code")).length) := by
  decide

/-!  ## Claim C6 -/

/-- Claim C6: extension routing of `read_zip_and_generate`.  For the
ZIP `[a.py, b.txt, c.java]` exactly `a.py` and `c.java` are processed
(in archive order) and exactly `b.txt` is skipped, whatever the
per-file generator does; in general every non-directory member whose
extension is outside `ALL_SUPPORTED_EXTS` lands in the skip list, and
every processed entry has a supported extension. -/
theorem claim_C6_routing :
    (∀ genAny useAi,
      (readZipAndGenerate genAny demoZip none useAi).1.map ZipResult.file =
        [ str "a.py", str "c.java" ] ∧
      (readZipAndGenerate genAny demoZip none useAi).2 = [ str "b.txt" ]) ∧
    (∀ genAny entries preferred useAi,
      (∀ e ∈ entries, e.isDir = false →
        splitextExt (lowerStr e.filename) ∉ ALL_SUPPORTED_EXTS →
        e.filename ∈ (readZipAndGenerate genAny entries preferred useAi).2) ∧
      (∀ r ∈ (readZipAndGenerate genAny entries preferred useAi).1,
        splitextExt (lowerStr r.file) ∈ ALL_SUPPORTED_EXTS)) := by
  constructor
  · exact fun genAny useAi => ⟨rfl, rfl⟩
  · intro genAny entries preferred useAi
    induction entries with
    | nil =>
        exact ⟨fun e he => absurd he (List.not_mem_nil e),
               fun r hr => absurd hr (List.not_mem_nil r)⟩
    | cons e rest ih =>
        obtain ⟨ih1, ih2⟩ := ih
        constructor
        · intro f hf hdir hext
          rcases List.mem_cons.mp hf with rfl | hf
          · simp only [readZipAndGenerate, hdir, if_false, Bool.false_eq_true]
            rw [if_pos hext]
            exact List.mem_cons_self _ _
          · have hmem := ih1 f hf hdir hext
            simp only [readZipAndGenerate]
            by_cases hd : e.isDir
            · simpa [hd] using hmem
            · by_cases hx : splitextExt (lowerStr e.filename) ∉ ALL_SUPPORTED_EXTS
              · simp only [hd, Bool.false_eq_true, if_false, if_pos hx]
                exact List.mem_cons_of_mem _ hmem
              · simp only [hd, Bool.false_eq_true, if_false, if_neg hx]
                exact hmem
        · intro r hr
          simp only [readZipAndGenerate] at hr
          by_cases hd : e.isDir
          · exact ih2 r (by simpa [hd] using hr)
          · by_cases hx : splitextExt (lowerStr e.filename) ∉ ALL_SUPPORTED_EXTS
            · exact ih2 r (by simpa [hd, hx] using hr)
            · simp only [hd, Bool.false_eq_true, if_false, if_neg hx] at hr
              rcases List.mem_cons.mp hr with rfl | hr
              · exact not_not.mp hx
              · exact ih2 r hr

/-- Claim C6, witness: the general routing part applied to the demo
archive and the `b.txt` member. -/
theorem claim_C6_witness :
    str "b.txt" ∈ (readZipAndGenerate trivGen demoZip none false).2 :=
  (claim_C6_routing.2 trivGen demoZip none false).1
    { filename := str "b.txt", isDir := false, content := str "hello" }
    (List.mem_cons_of_mem _ (List.mem_cons_self _ _)) rfl (by decide)

/-!  ## Claim C7 -/

/-- If the stripped summary contains a semicolon or a brace, or starts
with a code keyword, `_looks_like_bad_ai_summary` rejects it (the
earlier emptiness/length checks also answer `True`). -/
theorem bad_summary_of_flags (summary : Str)
    (h : ';' ∈ pyStrip summary ∨ lbr ∈ pyStrip summary ∨ rbr ∈ pyStrip summary ∨
      startsWithCodeKw (pyStrip summary) = true) :
    looksLikeBadAiSummary summary = true := by
  unfold looksLikeBadAiSummary
  by_cases h0 : pyStrip summary = []
  · simp [h0]
  · by_cases h1 : (pyStrip summary).length < 12
    · simp [h0, h1]
    · rcases h with h | h | h | h <;> simp [h0, h1, h]

/-- Claim C7: in `generate_any` with AI requested and the local model
available, a summary containing a semicolon or a brace, or starting
with a code keyword, is discarded: the result is exactly the rule-based
output with only the advisory note added, so the documentation equals
the rule-based documentation unchanged. -/
theorem claim_C7_discard (parse : Str → Except Str Py) (impls : LangImpls)
    (localModel : Str → Except Str Str) (language code filePath summary : Str)
    (hok : localModel code = .ok summary)
    (hbad : ';' ∈ pyStrip summary ∨ lbr ∈ pyStrip summary ∨ rbr ∈ pyStrip summary ∨
      startsWithCodeKw (pyStrip summary) = true) :
    generateAny parse impls true localModel language code filePath true =
      { generateRuleBased parse impls language code filePath with
          note := some aiRejectedNote } := by
  have hb := bad_summary_of_flags summary hbad
  simp [generateAny, hok, hb]

/-- Claim C7, witness: a concrete raw-code summary (semicolon present)
is rejected and the rule-based documentation is returned unchanged. -/
theorem claim_C7_witness :
    ';' ∈ pyStrip c7Summary ∧
    generateAny parseFailSyntax trivImpls true (fun _ => .ok c7Summary)
        (str "python") (str "x = 1") (str "pasted_code") true =
      { generateRuleBased parseFailSyntax trivImpls (str "python") (str "x = 1")
          (str "pasted_code") with note := some aiRejectedNote } :=
  ⟨by decide,
   claim_C7_discard parseFailSyntax trivImpls (fun _ => .ok c7Summary)
     (str "python") (str "x = 1") (str "pasted_code") c7Summary rfl
     (Or.inl (by decide))⟩

/-!  ## Claim C8 -/

/-- Claim C8, counterexample.  The response text `"[1, 2]"` is not
parseable as the expected two-field JSON object, yet `generate_with_llm`
returns the parsed list as-is instead of the original-code fallback:
the source returns whatever `json.loads` yields, without shape
validation. -/
theorem claim_C8_counterexample :
    isTwoFieldResult (Json.arr [ .num 1, .num 2 ]) = false ∧
    generateWithLlm loadsArr12 (str "[1, 2]") (str "print(1)") =
      Json.arr [ .num 1, .num 2 ] ∧
    generateWithLlm loadsArr12 (str "[1, 2]") (str "print(1)") ≠
      llmFallback (str "print(1)") :=
  ⟨rfl, rfl, fun h => by
    rw [show generateWithLlm loadsArr12 (str "[1, 2]") (str "print(1)") =
      Json.arr [ .num 1, .num 2 ] from rfl] at h
    exact Json.noConfusion h⟩

/-- Claim C8, amended: `generate_with_llm` returns the original code
unchanged together with the explanatory documentation string exactly
when no JSON value can be parsed at all — neither from the stripped
response text nor from its first-brace-to-last-brace substring. -/
theorem claim_C8_amended (loads : Str → Option Json) (responseText code : Str)
    (h1 : loads (pyStrip responseText) = none)
    (h2 : ∀ sub, braceSlice (pyStrip responseText) = some sub → loads sub = none) :
    generateWithLlm loads responseText code = llmFallback code := by
  unfold generateWithLlm
  rw [h1]
  cases hb : braceSlice (pyStrip responseText) with
  | none => rfl
  | some sub => simp [h2 sub hb]

/-- Claim C8, witness: a plain-text response parses as no JSON and
produces the fallback. -/
theorem claim_C8_witness :
    (fun _ : Str => (none : Option Json)) (pyStrip (str "not json")) = none ∧
    generateWithLlm (fun _ => none) (str "not json") (str "x = 1") =
      llmFallback (str "x = 1") :=
  ⟨rfl, claim_C8_amended (fun _ => none) (str "not json") (str "x = 1") rfl
    (fun _ _ => rfl)⟩

/-!  ## Claim C9 -/

/-- Claim C9: for every language tag outside the five supported ones
(after lowercasing and trimming), `generate_simple_docs` returns the
pass-through commented code (CRLF normalised, trailing whitespace
replaced by one newline, no comments inserted) and the fixed generic
documentation, with no note. -/
theorem claim_C9_unknown_language (parse : Str → Except Str Py) (impls : LangImpls)
    (language code filePath : Str)
    (h : pyStrip (lowerStr language) ∉
      [ str "python", str "javascript", str "html", str "css", str "java" ]) :
    generateSimpleDocs parse impls language code filePath =
      { commented_code := passThrough code
      , documentation := unknownDoc filePath (pyStrip (lowerStr language))
      , note := none } := by
  simp only [List.mem_cons, List.mem_singleton, not_or] at h
  obtain ⟨h1, h2, h3, h4, h5, -⟩ := h
  simp [generateSimpleDocs, h1, h2, h3, h4, h5, passThrough]

/-- Claim C9, witness: the language tag `" Ruby "` takes the
fallthrough branch. -/
theorem claim_C9_witness :
    pyStrip (lowerStr (str " Ruby ")) ∉
      [ str "python", str "javascript", str "html", str "css", str "java" ] ∧
    generateSimpleDocs parseFailSyntax trivImpls (str " Ruby ")
        (str "x = 1  " ++ [ '\x0d', '\n' ]) (str "pasted_code") =
      { commented_code := passThrough (str "x = 1  " ++ [ '\x0d', '\n' ])
      , documentation := unknownDoc (str "pasted_code") (pyStrip (lowerStr (str " Ruby ")))
      , note := none } :=
  ⟨by decide,
   claim_C9_unknown_language parseFailSyntax trivImpls (str " Ruby ")
     (str "x = 1  " ++ [ '\x0d', '\n' ]) (str "pasted_code") (by decide)⟩

/-!  ## Claim C10 -/

/-- Claim C10: the rule-based path is deterministic and independent of
the process-wide mutable state (the lazily loaded local-model cache):
run against any two states, it returns identical outputs and leaves the
state untouched. -/
theorem claim_C10_deterministic (parse : Str → Except Str Py) (impls : LangImpls)
    (st1 st2 : ProcState) (language code filePath : Str) :
    (generateRuleBasedRun parse impls st1 language code filePath).1 =
      (generateRuleBasedRun parse impls st2 language code filePath).1 ∧
    (generateRuleBasedRun parse impls st1 language code filePath).2 = st1 :=
  ⟨rfl, rfl⟩

/-!  ## String lemmas and Claim C3 -/

theorem contains_of_infix {hay n : Str} (hinf : n <:+: hay) : containsSub hay n = true := by
  obtain ⟨s, t, rfl⟩ := hinf
  induction s with
  | nil =>
      rw [containsSub.eq_def]
      have hp : n.isPrefixOf (n ++ t) = true :=
        List.isPrefixOf_iff_prefix.mpr ⟨t, rfl⟩
      simp [hp]
  | cons a s ih =>
      rw [containsSub.eq_def]
      simp only [List.cons_append]
      have ih2 : containsSub (s ++ (n ++ t)) n = true := by
        rw [← List.append_assoc]; exact ih
      simp [ih2]

theorem pyLstrip_cons_not_ws {c : Char} {r : Str} (h : isPyWs c = false) :
    pyLstrip (c :: r) = c :: r := by
  simp [pyLstrip, List.dropWhile_cons, h]

theorem pyRstrip_append {a b : Str} (h : pyRstrip b ≠ []) :
    pyRstrip (a ++ b) = a ++ pyRstrip b := by
  unfold pyRstrip at *
  have hne : (List.dropWhile isPyWs b.reverse).isEmpty = false := by
    cases hE : List.dropWhile isPyWs b.reverse with
    | nil => exact absurd (by rw [hE]; rfl) h
    | cons x xs => rfl
  rw [List.reverse_append, List.dropWhile_append, hne]
  simp [List.reverse_append]

theorem joinN_append {l1 l2 : List Str} (h1 : l1 ≠ []) (h2 : l2 ≠ []) :
    joinN (l1 ++ l2) = joinN l1 ++ '\n' :: joinN l2 := by
  induction l1 with
  | nil => contradiction
  | cons a rest ih =>
      cases rest with
      | nil =>
          cases l2 with
          | nil => contradiction
          | cons b bs => simp [joinN]
      | cons c cs =>
          have h := ih (by simp)
          calc joinN ((a :: c :: cs) ++ l2) = a ++ '\n' :: joinN (c :: cs ++ l2) := rfl
            _ = a ++ '\n' :: (joinN (c :: cs) ++ '\n' :: joinN l2) := by rw [h]
            _ = joinN (a :: c :: cs) ++ '\n' :: joinN l2 := by
                show _ = (a ++ '\n' :: joinN (c :: cs)) ++ '\n' :: joinN l2
                simp

theorem joinN_split {l1 l2 : List Str} (x : Str) (h1 : l1 ≠ []) (h2 : l2 ≠ []) :
    joinN (l1 ++ x :: l2) = joinN l1 ++ '\n' :: (x ++ '\n' :: joinN l2) := by
  have : l1 ++ x :: l2 = l1 ++ [x] ++ l2 := by simp
  rw [this, joinN_append (by simp [h1]) h2, joinN_append h1 (by simp)]
  simp [joinN]

theorem strip_append_infix {X A needle B : Str}
    (hX : X = A ++ (needle ++ B))
    (hhead : ∃ c r, X = c :: r ∧ isPyWs c = false)
    (hB : pyRstrip B ≠ []) :
    needle <:+: (pyStrip X ++ [ '\n' ]) := by
  obtain ⟨c, r, hcr, hws⟩ := hhead
  have hl : pyLstrip X = X := by rw [hcr]; exact pyLstrip_cons_not_ws hws
  have hr : pyStrip X = (A ++ needle) ++ pyRstrip B := by
    rw [pyStrip, hl, hX, show A ++ (needle ++ B) = (A ++ needle) ++ B by simp,
      pyRstrip_append hB]
  rw [hr]
  exact ⟨A, pyRstrip B ++ [ '\n' ], by simp⟩



set_option maxRecDepth 1000000 in
set_option maxHeartbeats 2000000 in
theorem contains_doc_first_edge (title : Str) (w r hw lg ex : List Str) (needle : Str) :
    containsSub
      (docSectionedNoCode title w r hw lg ex
        (needle :: [ str "If the code reads files, the file must exist (unless handled)."
                   , str "Bad formats (dates/numbers) can cause errors unless handled with try/except." ]))
      needle = true := by
  apply contains_of_infix
  have hsplit :
      ([ str "# " ++ title, [] ] ++
        [ str "## What it does" ] ++ bullets w ++ [ [] ] ++
        [ str "## Requirements" ] ++ bullets r ++ [ [] ] ++
        [ str "## How to run" ] ++ hw ++ [ [] ] ++
        [ str "## Explanation of logic" ] ++ bullets lg ++ [ [] ] ++
        [ str "## Example input/output" ] ++ bullets ex ++ [ [] ] ++
        [ str "## Edge cases / notes" ] ++
        bullets (needle :: [ str "If the code reads files, the file must exist (unless handled)."
                           , str "Bad formats (dates/numbers) can cause errors unless handled with try/except." ]) ++
        [ [] ] : List Str) =
      ([ str "# " ++ title, [] ] ++
        [ str "## What it does" ] ++ bullets w ++ [ [] ] ++
        [ str "## Requirements" ] ++ bullets r ++ [ [] ] ++
        [ str "## How to run" ] ++ hw ++ [ [] ] ++
        [ str "## Explanation of logic" ] ++ bullets lg ++ [ [] ] ++
        [ str "## Example input/output" ] ++ bullets ex ++ [ [] ] ++
        [ str "## Edge cases / notes" ]) ++
      ((str "- " ++ needle) ::
        [ str "- " ++ str "If the code reads files, the file must exist (unless handled)."
        , str "- " ++ str "Bad formats (dates/numbers) can cause errors unless handled with try/except."
        , [] ]) := by
    simp [bullets]
  have hX :
      joinN
        ([ str "# " ++ title, [] ] ++
          [ str "## What it does" ] ++ bullets w ++ [ [] ] ++
          [ str "## Requirements" ] ++ bullets r ++ [ [] ] ++
          [ str "## How to run" ] ++ hw ++ [ [] ] ++
          [ str "## Explanation of logic" ] ++ bullets lg ++ [ [] ] ++
          [ str "## Example input/output" ] ++ bullets ex ++ [ [] ] ++
          [ str "## Edge cases / notes" ] ++
          bullets (needle :: [ str "If the code reads files, the file must exist (unless handled)."
                             , str "Bad formats (dates/numbers) can cause errors unless handled with try/except." ]) ++
          [ [] ]) =
      (joinN
        ([ str "# " ++ title, [] ] ++
          [ str "## What it does" ] ++ bullets w ++ [ [] ] ++
          [ str "## Requirements" ] ++ bullets r ++ [ [] ] ++
          [ str "## How to run" ] ++ hw ++ [ [] ] ++
          [ str "## Explanation of logic" ] ++ bullets lg ++ [ [] ] ++
          [ str "## Example input/output" ] ++ bullets ex ++ [ [] ] ++
          [ str "## Edge cases / notes" ]) ++ '\n' :: str "- ") ++
      (needle ++
        ('\n' :: joinN
          [ str "- " ++ str "If the code reads files, the file must exist (unless handled)."
          , str "- " ++ str "Bad formats (dates/numbers) can cause errors unless handled with try/except."
          , [] ])) := by
    rw [hsplit, joinN_split _ (by simp) (by simp)]
    simp
  exact strip_append_infix hX ⟨'#', _, rfl, by decide⟩ (by decide)



set_option maxHeartbeats 2000000 in
theorem claim_C3_no_raise (parse : Str → Except Str Py) (code filePath err : Str)
    (h : parse (replaceCRLF code) = .error err) :
    (generatePythonDocs parse code filePath).commented_code =
      pythonAddComments parse (replaceCRLF code) filePath ∧
    containsSub (generatePythonDocs parse code filePath).documentation
      (str "Syntax/indentation error: " ++ err) = true := by
  refine ⟨rfl, ?_⟩
  show containsSub (pythonDocs parse (replaceCRLF code) filePath) _ = true
  unfold pythonDocs safeParsePython
  rw [h]
  exact contains_doc_first_edge _ _ _ _ _ _ _

theorem claim_C3_witness :
    parseFailSyntax (replaceCRLF (str "def f(:" ++ '\n' :: str "  return")) =
      .error (str "SyntaxError: invalid syntax") ∧
    ((generatePythonDocs parseFailSyntax (str "def f(:" ++ '\n' :: str "  return")
        (str "pasted_code")).commented_code =
      pythonAddComments parseFailSyntax
        (replaceCRLF (str "def f(:" ++ '\n' :: str "  return")) (str "pasted_code") ∧
    containsSub (generatePythonDocs parseFailSyntax
        (str "def f(:" ++ '\n' :: str "  return") (str "pasted_code")).documentation
      (str "Syntax/indentation error: " ++ str "SyntaxError: invalid syntax") = true) :=
  ⟨rfl, claim_C3_no_raise parseFailSyntax (str "def f(:" ++ '\n' :: str "  return")
    (str "pasted_code") (str "SyntaxError: invalid syntax") rfl⟩



/-!  ## Lemma suite for the line-preservation and length claims -/

theorem lineFree_iff {s : Str} :
    lineFree s = true ↔ '\n' ∉ s ∧ '\x0d' ∉ s := by
  simp [lineFree]

theorem lineFree_append {a b : Str} (ha : lineFree a = true) (hb : lineFree b = true) :
    lineFree (a ++ b) = true := by
  rw [lineFree_iff] at *
  simp [ha.1, ha.2, hb.1, hb.2]

theorem lineFree_of_sublist {a b : Str} (h : a.Sublist b) (hb : lineFree b = true) :
    lineFree a = true := by
  rw [lineFree_iff] at *
  exact ⟨fun hc => hb.1 (h.mem hc), fun hc => hb.2 (h.mem hc)⟩

theorem splitAux_ne_nil (s acc : Str) : splitAux s acc ≠ [] := by
  induction s, acc using splitAux.induct with
  | case1 acc => simp [splitAux]
  | case2 rest acc ih => cases rest <;> simp [splitAux]
  | case3 rest acc h ih =>
      have hne : ∀ cs, rest = '\n' :: cs → False := h
      cases rest with
      | nil => simp [splitAux]
      | cons c cs =>
          have hc : ¬ c = '\n' := fun hh => hne cs (by rw [hh])
          simp [splitAux, hc]
  | case4 rest acc ih =>
      cases rest <;> simp [splitAux]
  | case5 c rest acc h1 h2 h3 ih =>
      have hcr : ¬ c = '\x0d' := fun hh => h2 hh
      have hcn : ¬ c = '\n' := fun hh => h3 hh
      cases rest with
      | nil => simp [splitAux, hcr, hcn]
      | cons d ds =>
          simp only [splitAux, hcr, hcn]
          exact ih

theorem splitLines_ne_nil {s : Str} (h : s ≠ []) : splitLines s ≠ [] := by
  cases s with
  | nil => exact absurd rfl h
  | cons c cs => exact splitAux_ne_nil _ _

theorem joinN_cons_ne_nil {x : Str} {l : List Str} (h : l ≠ []) :
    joinN (x :: l) = x ++ '\n' :: joinN l := by
  cases l with
  | nil => exact absurd rfl h
  | cons y t => rfl

theorem splitAux_prefix_free {a : Str} (s acc : Str)
    (ha : ∀ c ∈ a, ¬ c = '\n' ∧ ¬ c = '\x0d') :
    splitAux (a ++ s) acc = splitAux s (a.reverse ++ acc) := by
  induction a generalizing acc with
  | nil => simp
  | cons c a ih =>
      have hc := ha c (List.mem_cons_self c a)
      have ha' : ∀ x ∈ a, ¬ x = '\n' ∧ ¬ x = '\x0d' :=
        fun x hx => ha x (List.mem_cons_of_mem c hx)
      rw [List.cons_append]
      rw [show splitAux (c :: (a ++ s)) acc = splitAux (a ++ s) (c :: acc) from by
        cases hae : a ++ s with
        | nil => simp [splitAux, hc.1, hc.2]
        | cons d ds => simp [splitAux, hc.1, hc.2]]
      rw [ih (c :: acc) ha']
      simp

theorem splitLines_single {x : Str} (hx : lineFree x = true) :
    splitLines x = if x = [] then [] else [x] := by
  cases x with
  | nil => simp [splitLines]
  | cons c cs =>
      have hfree : ∀ d ∈ c :: cs, ¬ d = '\n' ∧ ¬ d = '\x0d' := by
        intro d hd
        rw [lineFree_iff] at hx
        exact ⟨fun h => hx.1 (h ▸ hd), fun h => hx.2 (h ▸ hd)⟩
      have : splitAux ((c :: cs) ++ []) [] = splitAux [] ((c :: cs).reverse ++ []) :=
        splitAux_prefix_free [] [] hfree
      simp only [List.append_nil] at this
      simp [splitLines, this, splitAux]

theorem splitLines_line_cons {x : Str} (hx : lineFree x = true) (J : Str) :
    splitLines (x ++ '\n' :: J) = x :: splitLines J := by
  have hfree : ∀ d ∈ x, ¬ d = '\n' ∧ ¬ d = '\x0d' := by
    intro d hd
    rw [lineFree_iff] at hx
    exact ⟨fun h => hx.1 (h ▸ hd), fun h => hx.2 (h ▸ hd)⟩
  cases x with
  | nil =>
      cases J with
      | nil => simp [splitLines, splitAux]
      | cons d ds => simp [splitLines, splitAux]
  | cons c cs =>
      have h1 : splitAux ((c :: cs) ++ '\n' :: J) [] =
          splitAux ('\n' :: J) ((c :: cs).reverse ++ []) :=
        splitAux_prefix_free ('\n' :: J) [] hfree
      cases J with
      | nil =>
          simp only [splitLines, List.cons_append] at *
          rw [h1]
          simp [splitAux]
      | cons d ds =>
          simp only [splitLines, List.cons_append] at *
          rw [h1]
          simp [splitAux]

theorem joinN_splitAux (s acc : Str) :
    '\x0d' ∉ s → s.getLast? ≠ some '\n' →
    joinN (splitAux s acc) = acc.reverse ++ s := by
  induction s, acc using splitAux.induct with
  | case1 acc => intro _ _; simp [splitAux, joinN]
  | case2 rest acc ih => intro hcr _; simp at hcr
  | case3 rest acc h ih => intro hcr _; simp at hcr
  | case4 rest acc ih =>
      intro hcr hnl
      cases rest with
      | nil => exact absurd rfl hnl
      | cons d ds =>
          have ihd : joinN (splitAux (d :: ds) []) = List.reverse [] ++ (d :: ds) :=
            ih (by simpa using hcr) (by simpa using hnl)
          simp only [splitAux]
          rw [joinN_cons_ne_nil (splitAux_ne_nil _ _), ihd]
          simp
  | case5 c rest acc h1 h2 h3 ih =>
      intro hcr hnl
      have hcrc : ¬ c = '\x0d' := fun hh => h2 hh
      have hcnc : ¬ c = '\n' := fun hh => h3 hh
      cases rest with
      | nil =>
          simp [splitAux, hcrc, hcnc, joinN]
      | cons d ds =>
          have ihd := ih (fun hm => hcr (List.mem_cons_of_mem c hm)) (by simpa using hnl)
          rw [show splitAux (c :: d :: ds) acc = splitAux (d :: ds) (c :: acc) from by
            simp [splitAux, hcrc, hcnc]]
          rw [ihd]
          simp

theorem joinN_splitLines {s : Str} (hcr : '\x0d' ∉ s) (hnl : s.getLast? ≠ some '\n') :
    joinN (splitLines s) = s := by
  cases s with
  | nil => simp [splitLines, joinN]
  | cons c cs =>
      have := joinN_splitAux (c :: cs) [] hcr hnl
      simpa [splitLines] using this

theorem splitLines_joinN {l : List Str} (h : ∀ x ∈ l, lineFree x = true) :
    splitLines (joinN l) = if l.getLast? = some [] then l.dropLast else l := by
  induction l with
  | nil => simp [joinN, splitLines]
  | cons x rest ih =>
      cases rest with
      | nil =>
          by_cases hx : x = []
          · subst hx; simp [joinN, splitLines]
          · have h1 := splitLines_single (h x (List.mem_cons_self x []))
            simp [joinN, h1, hx]
      | cons y t =>
          have hx := h x (List.mem_cons_self x (y :: t))
          have hrest : ∀ z ∈ y :: t, lineFree z = true :=
            fun z hz => h z (List.mem_cons_of_mem x hz)
          rw [joinN_cons_ne_nil (by simp)]
          rw [splitLines_line_cons hx (joinN (y :: t))]
          rw [ih hrest]
          have hg : (x :: y :: t).getLast? = (y :: t).getLast? := by
            simp [List.getLast?_cons_cons]
          rw [hg]
          by_cases hend : (y :: t).getLast? = some ([] : Str)
          · simp [hend]
          · simp [hend]

theorem splitAux_getLast {c : Char} (s acc : Str) :
    '\x0d' ∉ s → s.getLast? = some c → c ≠ '\n' →
    ∃ pre t, splitAux s acc = pre ++ [t] ∧ t.getLast? = some c := by
  induction s, acc using splitAux.induct with
  | case1 acc => intro _ hl _; simp at hl
  | case2 rest acc ih => intro hcr _ _; simp at hcr
  | case3 rest acc h ih => intro hcr _ _; simp at hcr
  | case4 rest acc ih =>
      intro hcr hl hc
      cases rest with
      | nil => simp at hl; exact absurd hl.symm hc
      | cons d ds =>
          obtain ⟨pre, t, heq, hlast⟩ :=
            ih (by simpa using hcr) (by simpa using hl) hc
          refine ⟨List.reverse acc :: pre, t, ?_, hlast⟩
          simp [splitAux, heq]
  | case5 c' rest acc h1 h2 h3 ih =>
      intro hcr hl hc
      have hcrc : ¬ c' = '\x0d' := fun hh => h2 hh
      have hcnc : ¬ c' = '\n' := fun hh => h3 hh
      cases rest with
      | nil =>
          simp only [List.getLast?_singleton, Option.some.injEq] at hl
          refine ⟨[], List.reverse acc ++ [c'], ?_, ?_⟩
          · simp [splitAux, hcrc, hcnc]
          · rw [List.getLast?_concat, hl]
      | cons d ds =>
          obtain ⟨pre, t, heq, hlast⟩ :=
            ih (fun hm => hcr (List.mem_cons_of_mem c' hm)) (by simpa using hl) hc
          refine ⟨pre, t, ?_, hlast⟩
          rw [show splitAux (c' :: d :: ds) acc = splitAux (d :: ds) (c' :: acc) from by
            simp [splitAux, hcrc, hcnc]]
          exact heq

theorem splitLines_getLast {s : Str} {c : Char} (hcr : '\x0d' ∉ s)
    (hl : s.getLast? = some c) (hc : c ≠ '\n') :
    ∃ pre t, splitLines s = pre ++ [t] ∧ t.getLast? = some c := by
  cases s with
  | nil => simp at hl
  | cons a as => exact splitAux_getLast (a :: as) [] hcr hl hc

theorem pyRstrip_getLast_or (s : Str) :
    pyRstrip s = [] ∨ ∃ c, (pyRstrip s).getLast? = some c ∧ isPyWs c = false := by
  unfold pyRstrip
  cases hE : List.dropWhile isPyWs s.reverse with
  | nil => left; simp [hE]
  | cons x xs =>
      right
      refine ⟨x, ?_, ?_⟩
      · rw [List.getLast?_reverse]
        rfl
      · have := List.head?_dropWhile_not isPyWs s.reverse
        rw [hE] at this
        simpa using this

theorem pyRstrip_eq_self {s : Str} {c : Char} (hl : s.getLast? = some c)
    (hc : isPyWs c = false) : pyRstrip s = s := by
  unfold pyRstrip
  have hrev : s.reverse.head? = some c := by rw [← List.getLast?_reverse, List.reverse_reverse]; exact hl
  cases hr : s.reverse with
  | nil => simp [hr] at hrev
  | cons x xs =>
      rw [hr] at hrev
      simp only [List.head?_cons, Option.some.injEq] at hrev
      subst hrev
      rw [List.dropWhile_cons, hc]
      simp [← hr]

theorem pyRstrip_append_ws {s : Str} {c : Char} (hc : isPyWs c = true) :
    pyRstrip (s ++ [c]) = pyRstrip s := by
  unfold pyRstrip
  rw [List.reverse_append]
  simp [List.dropWhile_cons, hc]

theorem pyRstrip_idem (s : Str) : pyRstrip (pyRstrip s) = pyRstrip s := by
  rcases pyRstrip_getLast_or s with h | ⟨c, hl, hc⟩
  · rw [h]; rfl
  · exact pyRstrip_eq_self hl hc

theorem pyRstrip_strip (s : Str) : pyRstrip (pyStrip s) = pyStrip s := by
  unfold pyStrip
  exact pyRstrip_idem _

theorem pyRstrip_clean (code : Str) :
    pyRstrip (cleanExistingAutoHeaders code) =
      pyStrip (joinN (cleanLoop (splitLines code) false)) := by
  unfold cleanExistingAutoHeaders
  by_cases h : code.getLast? = some '\n'
  · rw [if_pos h, pyRstrip_append_ws (by decide)]
    exact pyRstrip_strip _
  · rw [if_neg h]
    simp only [List.append_nil]
    exact pyRstrip_strip _

theorem pyRstrip_firstPart (s : Str) : (pyRstrip s).IsPrefix s := by
  unfold pyRstrip
  have hsuf : (List.dropWhile isPyWs s.reverse).IsSuffix s.reverse :=
    List.dropWhile_suffix _
  have := List.reverse_prefix.mpr hsuf
  simpa using this

theorem pyStrip_getLast_or (s : Str) :
    pyStrip s = [] ∨ ∃ c, (pyStrip s).getLast? = some c ∧ isPyWs c = false :=
  pyRstrip_getLast_or (pyLstrip s)

theorem mem_pyStrip {c : Char} {s : Str} (h : c ∈ pyStrip s) : c ∈ s := by
  have h1 : c ∈ pyLstrip s := (pyRstrip_firstPart (pyLstrip s)).sublist.mem h
  exact (List.dropWhile_sublist isPyWs).mem h1

theorem mem_joinN {c : Char} {l : List Str} (h : c ∈ joinN l) :
    c = '\n' ∨ ∃ x ∈ l, c ∈ x := by
  induction l with
  | nil => simp [joinN] at h
  | cons x rest ih =>
      cases rest with
      | nil =>
          simp only [joinN] at h
          exact Or.inr ⟨x, List.mem_cons_self x [], h⟩
      | cons y t =>
          rw [joinN_cons_ne_nil (by simp)] at h
          rcases List.mem_append.mp h with hx | hrest
          · exact Or.inr ⟨x, List.mem_cons_self x (y :: t), hx⟩
          · rcases List.mem_cons.mp hrest with rfl | hrest
            · exact Or.inl rfl
            · rcases ih hrest with hnl | ⟨z, hz, hcz⟩
              · exact Or.inl hnl
              · exact Or.inr ⟨z, List.mem_cons_of_mem x hz, hcz⟩

theorem cleanLoop_sublist (l : List Str) (b : Bool) : (cleanLoop l b).Sublist l := by
  induction l generalizing b with
  | nil => simp [cleanLoop]
  | cons x rest ih =>
      rw [cleanLoop]
      split
      · exact (ih true).trans (List.sublist_cons_self x rest)
      · split
        · split
          · exact (ih false).trans (List.sublist_cons_self x rest)
          · exact (ih true).trans (List.sublist_cons_self x rest)
        · exact List.Sublist.cons₂ x (ih b)

theorem listSub_of_sublist {l1 l2 : List Str} (h : l1.Sublist l2) :
    listSub l1 l2 = true := by
  induction l2 generalizing l1 with
  | nil => cases h; rfl
  | cons b t2 ih =>
      cases l1 with
      | nil => rfl
      | cons a t1 =>
          rw [listSub]
          by_cases hab : a = b
          · subst hab
            rw [if_pos rfl]
            cases h with
            | cons _ h' => exact ih ((List.sublist_cons_self a t1).trans h')
            | cons₂ _ h' => exact ih h'
          · rw [if_neg hab]
            cases h with
            | cons _ h' => exact ih h'
            | cons₂ _ h' => exact absurd rfl hab

theorem sublist_of_dropLast_empty {l1 l2 : List Str} {x : Str}
    (h : l1.Sublist (l2 ++ [x])) (hne : l1.getLast? ≠ some x) : l1.Sublist l2 := by
  cases hl1 : l1.getLast? with
  | none =>
      rw [List.getLast?_eq_none_iff] at hl1
      subst hl1
      exact List.nil_sublist l2
  | some a =>
      have ha : a ≠ x := fun he => hne (by rw [hl1, he])
      obtain ⟨l1', rfl⟩ : ∃ l1', l1 = l1' ++ [a] := by
        cases l1 with
        | nil => simp at hl1
        | cons y ys =>
            have hne2 : (y :: ys) ≠ [] := by simp
            have heq := List.dropLast_append_getLast hne2
            have hgl : (y :: ys).getLast hne2 = a := by
              rw [List.getLast?_eq_getLast (y :: ys) hne2] at hl1
              exact Option.some.inj hl1
            exact ⟨(y :: ys).dropLast, by rw [hgl] at heq; exact heq.symm⟩
      have hrev : (a :: l1'.reverse).Sublist (x :: l2.reverse) := by
        have := List.reverse_sublist.mpr h
        simpa using this
      cases hrev with
      | cons _ h' =>
          have : (l1' ++ [a]).reverse.Sublist l2.reverse := by simpa using h'
          exact List.reverse_sublist.mp this
      | cons₂ _ h' => exact absurd rfl ha

theorem joinN_length_cons_le (x : Str) (l : List Str) :
    (joinN l).length ≤ (joinN (x :: l)).length := by
  cases l with
  | nil => simp [joinN]
  | cons y t =>
      have h : joinN (x :: y :: t) = x ++ '\n' :: joinN (y :: t) :=
        joinN_cons_ne_nil (by simp)
      rw [h]
      simp only [List.length_append, List.length_cons]
      omega

theorem joinN_length_mono {l1 l2 : List Str} (h : l1.Sublist l2) :
    (joinN l1).length ≤ (joinN l2).length := by
  induction h with
  | slnil => exact Nat.le_refl _
  | cons x h' ih => exact ih.trans (joinN_length_cons_le x _)
  | cons₂ x h' ih =>
      rename_i la lb
      cases la with
      | nil =>
          cases lb with
          | nil => exact Nat.le_refl _
          | cons b tb =>
              have h2 : joinN (x :: b :: tb) = x ++ '\n' :: joinN (b :: tb) :=
                joinN_cons_ne_nil (by simp)
              rw [joinN, h2]
              simp only [List.length_append, List.length_cons]
              omega
      | cons a ta =>
          have hlb : lb ≠ [] := by
            intro he
            subst he
            cases h'
          cases lb with
          | nil => exact absurd rfl hlb
          | cons b tb =>
              have h1 : joinN (x :: a :: ta) = x ++ '\n' :: joinN (a :: ta) :=
                joinN_cons_ne_nil (by simp)
              have h2 : joinN (x :: b :: tb) = x ++ '\n' :: joinN (b :: tb) :=
                joinN_cons_ne_nil (by simp)
              rw [h1, h2]
              simp only [List.length_append, List.length_cons]
              omega

theorem joinN_getLast {l : List Str} {t : Str} (h : l.getLast? = some t) :
    ∃ pre, joinN l = pre ++ t := by
  induction l with
  | nil => simp at h
  | cons x rest ih =>
      cases rest with
      | nil =>
          simp only [List.getLast?_singleton, Option.some.injEq] at h
          exact ⟨[], by simp [joinN, h]⟩
      | cons y tr =>
          obtain ⟨pre, hpre⟩ := ih (by simpa [List.getLast?_cons_cons] using h)
          refine ⟨x ++ '\n' :: pre, ?_⟩
          rw [joinN_cons_ne_nil (by simp), hpre]
          simp

theorem digitChar_lineFree (m : Nat) : lineFree [digitChar m] = true := by
  unfold digitChar
  split <;> decide

theorem natDigits_lineFree (fuel n : Nat) : lineFree (natDigits fuel n) = true := by
  induction fuel generalizing n with
  | zero => rw [natDigits]; decide
  | succ fuel ih =>
      rw [natDigits]
      split
      · exact digitChar_lineFree n
      · exact lineFree_append (ih _) (digitChar_lineFree _)

theorem splitComment_lineFree (n : Nat) : lineFree (splitComment n) = true := by
  unfold splitComment natToStr
  refine lineFree_append (lineFree_append (lineFree_append
    (lineFree_append (by decide) (natDigits_lineFree _ _)) (by decide))
    (natDigits_lineFree _ _)) (by decide)

theorem pyCommentRest_lineFree {st c : Str}
    (h : pyCommentRest st = some c) : lineFree c = true := by
  unfold pyCommentRest at h
  by_cases h1 : containsSub st (str "datetime.strptime") = true
  · rw [if_pos h1] at h
    injection h with h2
    subst h2
    decide
  · rw [if_neg h1] at h
    by_cases h2 : ((containsSub st (str "[") && containsSub st (str "]")) && containsSub st (str " for ")) = true
    · rw [if_pos h2] at h
      injection h with h2
      subst h2
      decide
    · rw [if_neg h2] at h
      by_cases h3 : (containsSub st (str "join(") && containsSub st (str " for ")) = true
      · rw [if_pos h3] at h
        injection h with h2
        subst h2
        decide
      · rw [if_neg h3] at h
        by_cases h4 : containsSub st (str "lambda ") = true
        · rw [if_pos h4] at h
          injection h with h2
          subst h2
          decide
        · rw [if_neg h4] at h
          by_cases h5 : containsSub st (str "enumerate(") = true
          · rw [if_pos h5] at h
            injection h with h2
            subst h2
            decide
          · rw [if_neg h5] at h
            by_cases h6 : containsSub st (str "zip(") = true
            · rw [if_pos h6] at h
              injection h with h2
              subst h2
              decide
            · rw [if_neg h6] at h
              by_cases h7 : containsSub st (str "sorted(") = true
              · rw [if_pos h7] at h
                injection h with h2
                subst h2
                decide
              · rw [if_neg h7] at h
                by_cases h8 : containsSub st (str ".sort(") = true
                · rw [if_pos h8] at h
                  by_cases hk : containsSub st (str "key=") = true
                  · rw [if_pos hk] at h
                    injection h with h2
                    subst h2
                    decide
                  · rw [if_neg hk] at h
                    injection h with h2
                    subst h2
                    decide
                · rw [if_neg h8] at h
                  by_cases h9 : containsSub st (str ".append(") = true
                  · rw [if_pos h9] at h
                    injection h with h2
                    subst h2
                    decide
                  · rw [if_neg h9] at h
                    by_cases h10 : containsSub st (str ".get(") = true
                    · rw [if_pos h10] at h
                      injection h with h2
                      subst h2
                      decide
                    · rw [if_neg h10] at h
                      by_cases h11 : containsSub st (str ".setdefault(") = true
                      · rw [if_pos h11] at h
                        injection h with h2
                        subst h2
                        decide
                      · rw [if_neg h11] at h
                        by_cases h12 : searchWordKw [ str "int" ] st = true
                        · rw [if_pos h12] at h
                          injection h with h2
                          subst h2
                          decide
                        · rw [if_neg h12] at h
                          by_cases h13 : searchWordKw [ str "float" ] st = true
                          · rw [if_pos h13] at h
                            injection h with h2
                            subst h2
                            decide
                          · rw [if_neg h13] at h
                            by_cases h14 : searchWordKw [ str "str" ] st = true
                            · rw [if_pos h14] at h
                              injection h with h2
                              subst h2
                              decide
                            · rw [if_neg h14] at h
                              by_cases h15 : startsWith st (str "return ") = true
                              · rw [if_pos h15] at h
                                injection h with h2
                                subst h2
                                decide
                              · rw [if_neg h15] at h
                                exact absurd h (by simp)

theorem pyCommentChecks_lineFree {st c : Str}
    (h : pyCommentChecks st = some c) : lineFree c = true := by
  unfold pyCommentChecks at h
  by_cases h1 : startsWith st (str "@dataclass") = true
  · rw [if_pos h1] at h
    by_cases hf : containsSub (st.filter (fun c => c ≠ ' ')) (str "frozen=True") = true
    · rw [if_pos hf] at h
      injection h with h2
      subst h2
      decide
    · rw [if_neg hf] at h
      injection h with h2
      subst h2
      decide
  · rw [if_neg h1] at h
    by_cases h2 : startsWith st (str "if __name__") = true
    · rw [if_pos h2] at h
      injection h with h2
      subst h2
      decide
    · rw [if_neg h2] at h
      by_cases h3 : startsWith st (str "for ") = true
      · rw [if_pos h3] at h
        injection h with h2
        subst h2
        decide
      · rw [if_neg h3] at h
        by_cases h4 : startsWith st (str "while ") = true
        · rw [if_pos h4] at h
          injection h with h2
          subst h2
          decide
        · rw [if_neg h4] at h
          by_cases h5 : st = str "try:"
          · rw [if_pos h5] at h
            injection h with h2
            subst h2
            decide
          · rw [if_neg h5] at h
            by_cases h6 : startsWith st (str "except") = true
            · rw [if_pos h6] at h
              injection h with h2
              subst h2
              decide
            · rw [if_neg h6] at h
              by_cases h7 : (startsWith st (str "with ") && containsSub st (str "open(")) = true
              · rw [if_pos h7] at h
                injection h with h2
                subst h2
                decide
              · rw [if_neg h7] at h
                by_cases h8 : (containsSub st (str ".split(") && (findSplitNum st).isSome) = true
                · rw [if_pos h8] at h
                  cases hfs : findSplitNum st with
                  | some n =>
                      simp only [hfs] at h
                      injection h with h2
                      subst h2
                      exact splitComment_lineFree n
                  | none =>
                      simp only [hfs] at h
                      exact pyCommentRest_lineFree h
                · rw [if_neg h8] at h
                  exact pyCommentRest_lineFree h

theorem pyCommentForLine_lineFree {s c : Str}
    (h : pyCommentForLine s = some c) : lineFree c = true :=
  pyCommentChecks_lineFree h

theorem groupImports_sublist (l : List Str) (b : Bool) :
    l.Sublist (groupImports l b) := by
  induction l generalizing b with
  | nil => simp
  | cons x rest ih =>
      rw [groupImports]
      by_cases hx : isImportLine x = true
      · rw [if_pos hx]
        refine List.Sublist.trans ?_ (List.sublist_append_right _ _)
        exact List.Sublist.cons₂ x (ih true)
      · rw [if_neg hx]
        refine List.Sublist.trans ?_ (List.sublist_append_right _ _)
        exact List.Sublist.cons₂ x (ih false)

theorem groupImports_ends (l : List Str) (b : Bool) (t : Str)
    (h : l.getLast? = some t) :
    ∃ M, groupImports l b = M ++ [t] ∨ groupImports l b = M ++ [t, []] := by
  induction l generalizing b with
  | nil => simp at h
  | cons x rest ih =>
      cases rest with
      | nil =>
          simp only [List.getLast?_singleton, Option.some.injEq] at h
          subst h
          rw [groupImports]
          by_cases hx : isImportLine x = true
          · rw [if_pos hx]
            refine ⟨if b then [] else [importsComment], Or.inr ?_⟩
            cases b <;> simp [groupImports]
          · rw [if_neg hx]
            refine ⟨if b then [ [] ] else [], Or.inl ?_⟩
            cases b <;> simp [groupImports]
      | cons y t2 =>
          obtain ⟨M, hM⟩ := ih (b := true) (by simpa using h)
          obtain ⟨M', hM'⟩ := ih (b := false) (by simpa using h)
          rw [groupImports]
          by_cases hx : isImportLine x = true
          · rw [if_pos hx]
            rcases hM with hM | hM
            · exact ⟨(if b then [] else [importsComment]) ++ x :: M, Or.inl (by rw [hM]; simp)⟩
            · exact ⟨(if b then [] else [importsComment]) ++ x :: M, Or.inr (by rw [hM]; simp)⟩
          · rw [if_neg hx]
            rcases hM' with hM' | hM'
            · exact ⟨(if b then [ [] ] else []) ++ x :: M', Or.inl (by rw [hM']; simp)⟩
            · exact ⟨(if b then [ [] ] else []) ++ x :: M', Or.inr (by rw [hM']; simp)⟩

theorem groupImports_mem {x : Str} {l : List Str} {b : Bool}
    (h : x ∈ groupImports l b) : x ∈ l ∨ x = importsComment ∨ x = [] := by
  induction l generalizing b with
  | nil =>
      rw [groupImports] at h
      cases b with
      | true => simp at h; simp [h]
      | false => simp at h
  | cons y rest ih =>
      rw [groupImports] at h
      by_cases hy : isImportLine y = true
      · rw [if_pos hy] at h
        rcases List.mem_append.mp h with hpre | hrest
        · cases b with
          | true => simp at hpre
          | false =>
              simp at hpre
              exact Or.inr (Or.inl hpre)
        · rcases List.mem_cons.mp hrest with rfl | htail
          · exact Or.inl (List.mem_cons_self _ _)
          · rcases ih htail with hl | hc
            · exact Or.inl (List.mem_cons_of_mem _ hl)
            · exact Or.inr hc
      · rw [if_neg hy] at h
        rcases List.mem_append.mp h with hpre | hrest
        · cases b with
          | true =>
              simp at hpre
              exact Or.inr (Or.inr hpre)
          | false => simp at hpre
        · rcases List.mem_cons.mp hrest with rfl | htail
          · exact Or.inl (List.mem_cons_self _ _)
          · rcases ih htail with hl | hc
            · exact Or.inl (List.mem_cons_of_mem _ hl)
            · exact Or.inr hc

theorem annotateLines_sublist (dm rm : List (Nat × Str)) (idx : Nat) (l : List Str) :
    l.Sublist (annotateLines dm rm idx l) := by
  induction l generalizing idx with
  | nil => simp [annotateLines]
  | cons x rest ih =>
      rw [annotateLines]
      refine List.Sublist.trans ?_ (List.sublist_append_right _ _)
      exact List.Sublist.cons₂ x (ih (idx + 1))

theorem annotateLines_getLast (dm rm : List (Nat × Str)) (idx : Nat)
    (l : List Str) (h : l ≠ []) :
    (annotateLines dm rm idx l).getLast? = l.getLast? := by
  induction l generalizing idx with
  | nil => exact absurd rfl h
  | cons x rest ih =>
      rw [annotateLines]
      cases rest with
      | nil =>
          rw [annotateLines]
          rw [List.getLast?_append]
          simp
      | cons y t2 =>
          rw [List.getLast?_append]
          have hne : annotateLines dm rm (idx + 1) (y :: t2) ≠ [] := by
            rw [annotateLines]
            simp
          rw [List.getLast?_cons_cons]
          have h2 : (x :: annotateLines dm rm (idx + 1) (y :: t2)).getLast? =
              (annotateLines dm rm (idx + 1) (y :: t2)).getLast? := by
            cases hA : annotateLines dm rm (idx + 1) (y :: t2) with
            | nil => exact absurd hA hne
            | cons a as => simp [List.getLast?_cons_cons]
          rw [h2, ih (idx + 1) (by simp)]
          cases hA : (y :: t2).getLast? with
          | none => simp at hA
          | some v => simp

theorem mem_of_lookup {m : List (Nat × Str)} {k : Nat} {v : Str}
    (h : m.lookup k = some v) : (k, v) ∈ m := by
  induction m with
  | nil => simp [List.lookup] at h
  | cons p rest ih =>
      cases p with
      | mk a b =>
          rw [List.lookup] at h
          by_cases hk : k = a
          · subst hk
            simp only [beq_self_eq_true] at h
            injection h with h2
            subst h2
            exact List.mem_cons_self _ _
          · have hbeq : (k == a) = false := by simpa using hk
            rw [hbeq] at h
            exact List.mem_cons_of_mem _ (ih h)

theorem indentOf_lineFree {line : Str} (h : lineFree line = true) :
    lineFree (indentOf line) = true :=
  lineFree_of_sublist (List.takeWhile_sublist _) h

theorem insertedBefore_gen_lineFree {line x : Str} (hline : lineFree line = true)
    (hx : x ∈ (if pyShouldCommentLine (pyStrip line) then
            match pyCommentForLine (pyStrip line) with
            | some c => [indentOf line ++ c]
            | none => []
          else ([] : List Str))) : lineFree x = true := by
  by_cases hsc : pyShouldCommentLine (pyStrip line) = true
  · rw [if_pos hsc] at hx
    cases hpc : pyCommentForLine (pyStrip line) with
    | some c =>
        simp only [hpc] at hx
        simp only [List.mem_singleton] at hx
        subst hx
        exact lineFree_append (indentOf_lineFree hline) (pyCommentForLine_lineFree hpc)
    | none => simp [hpc] at hx
  · rw [if_neg hsc] at hx
    simp at hx

theorem insertedBefore_tail_lineFree {rm : List (Nat × Str)} {idx : Nat} {line x : Str}
    (hline : lineFree line = true) (hrm : MapsLineFree rm)
    (hx : x ∈ (match rm.lookup idx, startsWith (pyStrip line) (str "return") with
      | some c, true => [indentOf line ++ c]
      | _, _ =>
          if pyShouldCommentLine (pyStrip line) then
            match pyCommentForLine (pyStrip line) with
            | some c => [indentOf line ++ c]
            | none => []
          else [])) : lineFree x = true := by
  cases hrml : rm.lookup idx with
  | some c =>
      cases hsr : startsWith (pyStrip line) (str "return") with
      | true =>
          simp only [hrml, hsr] at hx
          simp only [List.mem_singleton] at hx
          subst hx
          exact lineFree_append (indentOf_lineFree hline) (hrm _ (mem_of_lookup hrml))
      | false =>
          simp only [hrml, hsr] at hx
          exact insertedBefore_gen_lineFree hline hx
  | none =>
      simp only [hrml] at hx
      exact insertedBefore_gen_lineFree hline hx

theorem insertedBefore_lineFree {dm rm : List (Nat × Str)} {idx : Nat} {line : Str}
    (hline : lineFree line = true)
    (hdm : MapsLineFree dm) (hrm : MapsLineFree rm) :
    ∀ x ∈ insertedBefore dm rm idx line, lineFree x = true := by
  intro x hx
  unfold insertedBefore at hx
  cases hdml : dm.lookup idx with
  | some c =>
      cases hsw : startsWithAny (pyStrip line) [ str "def ", str "class " ] with
      | true =>
          simp only [hdml, hsw] at hx
          simp only [List.mem_singleton] at hx
          subst hx
          exact lineFree_append (indentOf_lineFree hline) (hdm _ (mem_of_lookup hdml))
      | false =>
          simp only [hdml, hsw] at hx
          exact insertedBefore_tail_lineFree hline hrm hx
  | none =>
      simp only [hdml] at hx
      exact insertedBefore_tail_lineFree hline hrm hx

theorem annotateLines_lineFree {dm rm : List (Nat × Str)}
    (hdm : MapsLineFree dm) (hrm : MapsLineFree rm) (idx : Nat) (l : List Str)
    (hl : ∀ x ∈ l, lineFree x = true) :
    ∀ x ∈ annotateLines dm rm idx l, lineFree x = true := by
  induction l generalizing idx with
  | nil => intro x hx; simp [annotateLines] at hx
  | cons line rest ih =>
      intro x hx
      rw [annotateLines] at hx
      rcases List.mem_append.mp hx with hpre | hrest
      · exact insertedBefore_lineFree (hl line (List.mem_cons_self _ _)) hdm hrm x hpre
      · rcases List.mem_cons.mp hrest with rfl | htail
        · exact hl x (List.mem_cons_self _ _)
        · exact ih (idx + 1) (fun z hz => hl z (List.mem_cons_of_mem _ hz)) x htail

theorem revAcc_lineFree {acc : Str}
    (hacc : ∀ c ∈ acc, ¬ c = '\n' ∧ ¬ c = '\x0d') :
    lineFree acc.reverse = true := by
  rw [lineFree_iff]
  constructor
  · intro hc
    rw [List.mem_reverse] at hc
    exact (hacc _ hc).1 rfl
  · intro hc
    rw [List.mem_reverse] at hc
    exact (hacc _ hc).2 rfl

theorem splitAux_lineFree (s acc : Str) :
    (∀ c ∈ acc, ¬ c = '\n' ∧ ¬ c = '\x0d') →
    ∀ x ∈ splitAux s acc, lineFree x = true := by
  induction s, acc using splitAux.induct with
  | case1 acc =>
      intro hacc x hx
      simp only [splitAux, List.mem_singleton] at hx
      subst hx
      exact revAcc_lineFree hacc
  | case2 rest acc ih =>
      intro hacc x hx
      cases rest with
      | nil =>
          simp only [splitAux] at hx
          rcases List.mem_cons.mp hx with hx | hx
          · subst hx
            exact revAcc_lineFree hacc
          · simp at hx
      | cons d ds =>
          simp only [splitAux] at hx
          rcases List.mem_cons.mp hx with hx | hx
          · subst hx
            exact revAcc_lineFree hacc
          · exact ih (by simp) x hx
  | case3 rest acc h ih =>
      intro hacc x hx
      cases rest with
      | nil =>
          have hrw : splitAux ['\x0d'] acc = [acc.reverse] := by simp [splitAux]
          rw [hrw] at hx
          simp only [List.mem_singleton] at hx
          subst hx
          exact revAcc_lineFree hacc
      | cons d ds =>
          have hne : ¬ d = '\n' := by
            intro he
            exact h ds (by rw [he])
          have hrw : splitAux ('\x0d' :: d :: ds) acc =
              acc.reverse :: splitAux (d :: ds) [] := by
            simp [splitAux, hne]
          rw [hrw] at hx
          rcases List.mem_cons.mp hx with hx | hx
          · subst hx
            exact revAcc_lineFree hacc
          · exact ih (by simp) x hx
  | case4 rest acc ih =>
      intro hacc x hx
      cases rest with
      | nil =>
          have hrw : splitAux ['\n'] acc = [acc.reverse] := by simp [splitAux]
          rw [hrw] at hx
          simp only [List.mem_singleton] at hx
          subst hx
          exact revAcc_lineFree hacc
      | cons d ds =>
          have hrw : splitAux ('\n' :: d :: ds) acc =
              acc.reverse :: splitAux (d :: ds) [] := by
            simp [splitAux]
          rw [hrw] at hx
          rcases List.mem_cons.mp hx with hx | hx
          · subst hx
            exact revAcc_lineFree hacc
          · exact ih (by simp) x hx
  | case5 c rest acc h1 h2 h3 ih =>
      intro hacc x hx
      have hcr : ¬ c = '\x0d' := fun hh => h2 hh
      have hcn : ¬ c = '\n' := fun hh => h3 hh
      have hacc2 : ∀ d ∈ c :: acc, ¬ d = '\n' ∧ ¬ d = '\x0d' := by
        intro d hd
        rcases List.mem_cons.mp hd with rfl | hd
        · exact ⟨hcn, hcr⟩
        · exact hacc d hd
      cases rest with
      | nil =>
          have hrw : splitAux [c] acc = splitAux [] (c :: acc) := by
            simp [splitAux, hcr, hcn]
          rw [hrw] at hx
          simp only [splitAux, List.mem_singleton] at hx
          subst hx
          exact revAcc_lineFree hacc2
      | cons d ds =>
          have hrw : splitAux (c :: d :: ds) acc = splitAux (d :: ds) (c :: acc) := by
            simp [splitAux, hcr, hcn]
          rw [hrw] at hx
          exact ih hacc2 x hx

theorem splitLines_lineFree {s : Str} : ∀ x ∈ splitLines s, lineFree x = true := by
  cases s with
  | nil => intro x hx; simp [splitLines] at hx
  | cons c cs => exact splitAux_lineFree (c :: cs) [] (by simp)

theorem addComments_skeleton (parse : Str → Except Str Py) (code fp : Str)
    (S : Str) (dm rm : List (Nat × Str))
    (hS : S = pyStrip (joinN (cleanLoop (splitLines code) false)))
    (hdm : dm = (pythonBuildCommentMaps parse (cleanExistingAutoHeaders code)).1)
    (hrm : rm = (pythonBuildCommentMaps parse (cleanExistingAutoHeaders code)).2)
    (hfp : lineFree fp = true)
    (hSne : S ≠ []) :
    ∃ rebuilt t c0,
      pythonFinalLines parse code fp = annotateLines dm rm 1 rebuilt ∧
      (splitLines S).Sublist (annotateLines dm rm 1 rebuilt) ∧
      (∀ x ∈ rebuilt, lineFree x = true) ∧
      (annotateLines dm rm 1 rebuilt).getLast? = some t ∧
      t.getLast? = some c0 ∧ isPyWs c0 = false ∧
      joinN (splitLines S) = S := by
  have hnoCR : '\x0d' ∉ S := by
    rw [hS]
    intro hc
    have h1 := mem_pyStrip hc
    rcases mem_joinN h1 with h2 | ⟨x, hx, hcx⟩
    · exact absurd h2 (by decide)
    · have hx2 : x ∈ splitLines code := (cleanLoop_sublist _ _).mem hx
      have hfree := splitLines_lineFree x hx2
      rw [lineFree_iff] at hfree
      exact hfree.2 hcx
  obtain ⟨c0, hc0l, hc0w⟩ : ∃ c, S.getLast? = some c ∧ isPyWs c = false := by
    rcases pyStrip_getLast_or (joinN (cleanLoop (splitLines code) false)) with h | h
    · rw [← hS] at h
      exact absurd h hSne
    · rw [← hS] at h
      exact h
  have hc0n : c0 ≠ '\n' := by
    intro he
    rw [he] at hc0w
    exact absurd hc0w (by decide)
  have hSlast_ne : S.getLast? ≠ some '\n' := by
    rw [hc0l]
    intro hh
    injection hh with hh
    exact hc0n hh
  have hSJ : joinN (splitLines S) = S := joinN_splitLines hnoCR hSlast_ne
  have hLfree : ∀ x ∈ splitLines S, lineFree x = true :=
    fun x hx => splitLines_lineFree x hx
  have hLne : splitLines S ≠ [] := splitLines_ne_nil hSne
  obtain ⟨preL, t, hLsplit, htl⟩ := splitLines_getLast hnoCR hc0l hc0n
  have htne : t ≠ [] := by
    intro he
    rw [he] at htl
    simp at htl
  have hLlast : (splitLines S).getLast? = some t := by
    rw [hLsplit]
    exact List.getLast?_concat _
  have hcleanSplit : cleanExistingAutoHeaders code =
      S ++ (if code.getLast? = some '\n' then [ '\n' ] else []) := by
    rw [hS]
    rfl
  have hlines : splitLines (cleanExistingAutoHeaders code) = splitLines S := by
    rw [hcleanSplit]
    by_cases hnl : code.getLast? = some '\n'
    · rw [if_pos hnl]
      have h1 : S ++ [ '\n' ] = joinN (splitLines S ++ [ ([] : Str) ]) := by
        rw [joinN_append hLne (by simp), hSJ]
        rfl
      have hboth : ∀ x ∈ splitLines S ++ [ ([] : Str) ], lineFree x = true := by
        intro x hx
        rcases List.mem_append.mp hx with hx | hx
        · exact hLfree x hx
        · simp only [List.mem_singleton] at hx
          subst hx
          decide
      rw [h1, splitLines_joinN hboth, List.getLast?_concat]
      simp
    · rw [if_neg hnl]
      simp
  obtain ⟨M, hGM⟩ := groupImports_ends (splitLines S) false t hLlast
  have hGfree : ∀ x ∈ groupImports (splitLines S) false, lineFree x = true := by
    intro x hx
    rcases groupImports_mem hx with h | h | h
    · exact hLfree x h
    · subst h; decide
    · subst h; decide
  have hhd : lineFree (fileHeader fp) = true := by
    unfold fileHeader
    refine lineFree_append (by decide) ?_
    by_cases hfpe : fp ≠ []
    · rw [if_pos hfpe]
      refine lineFree_of_sublist ?_ hfp
      unfold basename
      have h1 : (fp.reverse.takeWhile (fun c => c ≠ '/')).Sublist fp.reverse :=
        List.takeWhile_sublist _
      have h2 := List.reverse_sublist.mpr h1
      simpa using h2
    · rw [if_neg hfpe]
      decide
  have houtfree : ∀ x ∈ fileHeader fp :: ([] : Str) :: groupImports (splitLines S) false,
      lineFree x = true := by
    intro x hx
    rcases List.mem_cons.mp hx with rfl | hx
    · exact hhd
    · rcases List.mem_cons.mp hx with rfl | hx
      · decide
      · exact hGfree x hx
  have hMGmem : ∀ x ∈ M ++ [t], x ∈ groupImports (splitLines S) false := by
    intro x hx
    rcases hGM with hGM | hGM
    · rw [hGM]
      exact hx
    · rw [hGM]
      have : M ++ [t, ([] : Str)] = (M ++ [t]) ++ [ [] ] := by simp
      rw [this]
      exact List.mem_append_left _ hx
  have hrebuiltEq :
      splitLines (joinN (fileHeader fp :: ([] : Str) :: groupImports (splitLines S) false)) =
        fileHeader fp :: ([] : Str) :: (M ++ [t]) := by
    rcases hGM with hGM | hGM
    · rw [hGM] at houtfree ⊢
      rw [splitLines_joinN houtfree]
      have hl : (fileHeader fp :: ([] : Str) :: (M ++ [t])).getLast? = some t := by
        have hsh : fileHeader fp :: ([] : Str) :: (M ++ [t]) =
            (fileHeader fp :: ([] : Str) :: M) ++ [t] := by simp
        rw [hsh]
        exact List.getLast?_concat _
      rw [hl]
      rw [if_neg (by simp [htne])]
    · rw [hGM] at houtfree ⊢
      rw [splitLines_joinN houtfree]
      have hsh : fileHeader fp :: ([] : Str) :: (M ++ [t, ([] : Str)]) =
          ((fileHeader fp :: ([] : Str) :: M) ++ [t]) ++ [ [] ] := by simp
      rw [hsh, List.getLast?_concat]
      rw [if_pos rfl, List.dropLast_concat]
      simp
  have hRsub : (splitLines S).Sublist (fileHeader fp :: ([] : Str) :: (M ++ [t])) := by
    have hsubMT : (splitLines S).Sublist (M ++ [t]) := by
      rcases hGM with hGM | hGM
      · have := groupImports_sublist (splitLines S) false
        rw [hGM] at this
        exact this
      · have hsubG := groupImports_sublist (splitLines S) false
        rw [hGM] at hsubG
        have hsh : M ++ [t, ([] : Str)] = (M ++ [t]) ++ [ [] ] := by simp
        rw [hsh] at hsubG
        refine sublist_of_dropLast_empty hsubG ?_
        rw [hLlast]
        intro hh
        injection hh with hh
        exact htne hh
    exact (hsubMT.cons _).cons _
  have hRlast : (fileHeader fp :: ([] : Str) :: (M ++ [t])).getLast? = some t := by
    have hsh : fileHeader fp :: ([] : Str) :: (M ++ [t]) =
        (fileHeader fp :: ([] : Str) :: M) ++ [t] := by simp
    rw [hsh]
    exact List.getLast?_concat _
  have hRfree : ∀ x ∈ fileHeader fp :: ([] : Str) :: (M ++ [t]), lineFree x = true := by
    intro x hx
    rcases List.mem_cons.mp hx with rfl | hx
    · exact hhd
    · rcases List.mem_cons.mp hx with rfl | hx
      · decide
      · exact hGfree x (hMGmem x hx)
  have hfinalEq : pythonFinalLines parse code fp =
      annotateLines dm rm 1 (fileHeader fp :: ([] : Str) :: (M ++ [t])) := by
    rw [hdm, hrm]
    show annotateLines (pythonBuildCommentMaps parse (cleanExistingAutoHeaders code)).1
        (pythonBuildCommentMaps parse (cleanExistingAutoHeaders code)).2 1
        (splitLines (joinN (fileHeader fp :: ([] : Str) ::
          groupImports (splitLines (cleanExistingAutoHeaders code)) false))) = _
    rw [hlines, hrebuiltEq]
  have hFlast : (annotateLines dm rm 1 (fileHeader fp :: ([] : Str) :: (M ++ [t]))).getLast? =
      some t := by
    rw [annotateLines_getLast dm rm 1 _ (by simp)]
    exact hRlast
  exact ⟨fileHeader fp :: ([] : Str) :: (M ++ [t]), t, c0, hfinalEq,
    hRsub.trans (annotateLines_sublist dm rm 1 _), hRfree, hFlast, htl, hc0w, hSJ⟩

/-- Claim C2, amended: after the cleanup pass of
`_clean_existing_auto_headers` (marker-block removal plus whole-text
whitespace strip), every line of the cleaned text appears unmodified,
in the same relative order, among the lines of the annotator output:
the rewrite phase proper is insertion-only.  The side conditions state
that the file path and the AST-derived comments are single-line, which
CPython guarantees for every real parse result. -/
theorem claim_C2_lines_preserved (parse : Str → Except Str Py) (code fp : Str)
    (hfp : lineFree fp = true)
    (hdm : MapsLineFree (pythonBuildCommentMaps parse (cleanExistingAutoHeaders code)).1)
    (hrm : MapsLineFree (pythonBuildCommentMaps parse (cleanExistingAutoHeaders code)).2) :
    listSub (splitLines (pyRstrip (cleanExistingAutoHeaders code)))
      (splitLines (pythonAddComments parse code fp)) = true := by
  apply listSub_of_sublist
  rw [pyRstrip_clean]
  by_cases hSne : pyStrip (joinN (cleanLoop (splitLines code) false)) = []
  · rw [hSne]
    exact List.nil_sublist _
  · obtain ⟨rebuilt, t, c0, hEq, hsub, hfreeR, hlast, htl, hc0w, hSJ⟩ :=
      addComments_skeleton parse code fp _ _ _ rfl rfl rfl hfp hSne
    have hfree2 : ∀ x ∈ annotateLines
        (pythonBuildCommentMaps parse (cleanExistingAutoHeaders code)).1
        (pythonBuildCommentMaps parse (cleanExistingAutoHeaders code)).2 1 rebuilt,
        lineFree x = true :=
      annotateLines_lineFree hdm hrm 1 rebuilt hfreeR
    have hfne : annotateLines
        (pythonBuildCommentMaps parse (cleanExistingAutoHeaders code)).1
        (pythonBuildCommentMaps parse (cleanExistingAutoHeaders code)).2 1 rebuilt ≠ [] := by
      intro h
      rw [h] at hlast
      simp at hlast
    have hJlast : (joinN (annotateLines
        (pythonBuildCommentMaps parse (cleanExistingAutoHeaders code)).1
        (pythonBuildCommentMaps parse (cleanExistingAutoHeaders code)).2 1 rebuilt)).getLast? =
        some c0 := by
      obtain ⟨pre, hpre⟩ := joinN_getLast hlast
      rw [hpre, List.getLast?_append, htl]
      rfl
    have hrs : pyRstrip (joinN (annotateLines
        (pythonBuildCommentMaps parse (cleanExistingAutoHeaders code)).1
        (pythonBuildCommentMaps parse (cleanExistingAutoHeaders code)).2 1 rebuilt)) =
        joinN (annotateLines
        (pythonBuildCommentMaps parse (cleanExistingAutoHeaders code)).1
        (pythonBuildCommentMaps parse (cleanExistingAutoHeaders code)).2 1 rebuilt) :=
      pyRstrip_eq_self hJlast hc0w
    have hplusfree : ∀ x ∈ (annotateLines
        (pythonBuildCommentMaps parse (cleanExistingAutoHeaders code)).1
        (pythonBuildCommentMaps parse (cleanExistingAutoHeaders code)).2 1 rebuilt) ++
          [ ([] : Str) ], lineFree x = true := by
      intro x hx
      rcases List.mem_append.mp hx with hx | hx
      · exact hfree2 x hx
      · simp only [List.mem_singleton] at hx
        subst hx
        decide
    have houtlines : splitLines (pythonAddComments parse code fp) =
        annotateLines
          (pythonBuildCommentMaps parse (cleanExistingAutoHeaders code)).1
          (pythonBuildCommentMaps parse (cleanExistingAutoHeaders code)).2 1 rebuilt := by
      show splitLines (pyRstrip (joinN (pythonFinalLines parse code fp)) ++ [ '\n' ]) = _
      rw [hEq, hrs]
      have h1 : joinN (annotateLines
          (pythonBuildCommentMaps parse (cleanExistingAutoHeaders code)).1
          (pythonBuildCommentMaps parse (cleanExistingAutoHeaders code)).2 1 rebuilt) ++
            [ '\n' ] =
          joinN ((annotateLines
          (pythonBuildCommentMaps parse (cleanExistingAutoHeaders code)).1
          (pythonBuildCommentMaps parse (cleanExistingAutoHeaders code)).2 1 rebuilt) ++
            [ ([] : Str) ]) := by
        rw [joinN_append hfne (by simp)]
        rfl
      rw [h1, splitLines_joinN hplusfree, List.getLast?_concat, if_pos rfl,
        List.dropLast_concat]
    rw [houtlines]
    exact hsub

/-- Claim C5, amended: the annotator's output is never shorter than the
trivial pass-through of the cleaned input (the input after marker-block
removal and whole-text whitespace strip), and it always ends with
exactly one trailing newline. -/
theorem claim_C5_output_floor (parse : Str → Except Str Py) (code fp : Str)
    (hfp : lineFree fp = true) :
    (pyRstrip (cleanExistingAutoHeaders code)).length + 1 ≤
      (pythonAddComments parse code fp).length ∧
    ∃ u, pythonAddComments parse code fp = u ++ [ '\n' ] ∧
      (u = [] ∨ u.getLast? ≠ some '\n') := by
  constructor
  · rw [pyRstrip_clean]
    by_cases hSne : pyStrip (joinN (cleanLoop (splitLines code) false)) = []
    · rw [hSne]
      show 0 + 1 ≤ (pyRstrip (joinN (pythonFinalLines parse code fp)) ++ [ '\n' ]).length
      simp
    · obtain ⟨rebuilt, t, c0, hEq, hsub, hfreeR, hlast, htl, hc0w, hSJ⟩ :=
        addComments_skeleton parse code fp _ _ _ rfl rfl rfl hfp hSne
      have hJlast : (joinN (annotateLines
          (pythonBuildCommentMaps parse (cleanExistingAutoHeaders code)).1
          (pythonBuildCommentMaps parse (cleanExistingAutoHeaders code)).2 1 rebuilt)).getLast? =
          some c0 := by
        obtain ⟨pre, hpre⟩ := joinN_getLast hlast
        rw [hpre, List.getLast?_append, htl]
        rfl
      have hrs : pyRstrip (joinN (annotateLines
          (pythonBuildCommentMaps parse (cleanExistingAutoHeaders code)).1
          (pythonBuildCommentMaps parse (cleanExistingAutoHeaders code)).2 1 rebuilt)) =
          joinN (annotateLines
          (pythonBuildCommentMaps parse (cleanExistingAutoHeaders code)).1
          (pythonBuildCommentMaps parse (cleanExistingAutoHeaders code)).2 1 rebuilt) :=
        pyRstrip_eq_self hJlast hc0w
      have hlen : (joinN (splitLines (pyStrip (joinN (cleanLoop (splitLines code) false))))).length ≤
          (joinN (annotateLines
          (pythonBuildCommentMaps parse (cleanExistingAutoHeaders code)).1
          (pythonBuildCommentMaps parse (cleanExistingAutoHeaders code)).2 1 rebuilt)).length :=
        joinN_length_mono hsub
      rw [hSJ] at hlen
      show _ + 1 ≤ (pyRstrip (joinN (pythonFinalLines parse code fp)) ++ [ '\n' ]).length
      rw [hEq, hrs]
      simp only [List.length_append, List.length_cons, List.length_nil]
      omega
  · refine ⟨pyRstrip (joinN (pythonFinalLines parse code fp)), rfl, ?_⟩
    rcases pyRstrip_getLast_or (joinN (pythonFinalLines parse code fp)) with h | ⟨c, hcl, hcw⟩
    · exact Or.inl h
    · right
      rw [hcl]
      intro hh
      injection hh with hh
      subst hh
      exact absurd hcw (by decide)

/-- Claim C2, counterexample to the literal statement: the input
line "  x" (two leading spaces) does not survive into the output,
because the cleanup pass strips the whole text before the rewrite
phase, turning the line into "x". -/
theorem claim_C2_counterexample :
    ¬ (listSub (splitLines (str "  x"))
        (splitLines (pythonAddComments parseNameX (str "  x") (str "pasted_code"))) = true) := by
  decide

/-- Witness for the amended Claim C2 at the two-line add example. -/
theorem claim_C2_witness :
    lineFree (str "pasted_code") = true ∧
    MapsLineFree (pythonBuildCommentMaps parseAdd (cleanExistingAutoHeaders addInput)).1 ∧
    MapsLineFree (pythonBuildCommentMaps parseAdd (cleanExistingAutoHeaders addInput)).2 ∧
    listSub (splitLines (pyRstrip (cleanExistingAutoHeaders addInput)))
      (splitLines (pythonAddComments parseAdd addInput (str "pasted_code"))) = true :=
  ⟨by decide, by unfold MapsLineFree ; decide, by unfold MapsLineFree ; decide,
    claim_C2_lines_preserved parseAdd addInput (str "pasted_code")
      (by decide) (by unfold MapsLineFree ; decide) (by unfold MapsLineFree ; decide)⟩

/-- Witness for the amended Claim C5 at the two-line add example. -/
theorem claim_C5_witness :
    lineFree (str "pasted_code") = true ∧
    ((pyRstrip (cleanExistingAutoHeaders addInput)).length + 1 ≤
      (pythonAddComments parseAdd addInput (str "pasted_code")).length ∧
    ∃ u, pythonAddComments parseAdd addInput (str "pasted_code") = u ++ [ '\n' ] ∧
      (u = [] ∨ u.getLast? ≠ some '\n')) :=
  ⟨by decide,
    claim_C5_output_floor parseAdd addInput (str "pasted_code") (by decide)⟩

end DocGen
